import Mathlib

/-!
# Verification of the scip-typescript symbol-resolution and occurrence-emission core

Shallow embedding of the indexer core:

* `Descriptor.ts` (descriptor constructors, `descriptorString`, `escapedName`,
  `isSimpleIdentifier`);
* `FileIndexer.ts` (`lsifSymbol`, `cached`, `newLocalSymbol`, `descriptor`,
  `declarationName`, `visitIdentifier`, `handleShorthandPropertyDefinition`,
  `isAnonymousContainerOfSymbols`).

External collaborators (the TypeScript checker, `Packages`, `Range`,
`LsifSymbol`, `Counter`) are not part of the indexed sources; they are
modelled from the specification where needed, and every such definition is
marked `Modelled from the spec:` in its doc comment.

Syntax-tree nodes are represented by arena indices (`Nat`); parents are
allocated before children, which gives the well-founded measure for the
recursive resolver and matches the spec's suggested arena-allocated node
identity.
-/

namespace ScipTs

/-- The backtick character (codepoint 96), the escape delimiter of the codec. -/
def btChar : Char := Char.ofNat 96

/-! ## Descriptor codec (from `Descriptor.ts`) -/

/-- The descriptor suffix kinds of `scip.Descriptor.Suffix` used by the codec. -/
inductive Suffix where
  | package
  | typ
  | term
  | meta
  | method
  | parameter
  | typeParameter
deriving DecidableEq, Repr

/-- `scip.Descriptor`: a name, a suffix kind and an optional disambiguator
(the protobuf default for an absent disambiguator is the empty string, which
is also how `descriptorString` treats `undefined`). -/
structure Descriptor where
  name : String
  suffix : Suffix
  disambiguator : String := ""
deriving DecidableEq, Repr

def packageDescriptor (name : String) : Descriptor := ⟨name, Suffix.package, ""⟩

def typeDescriptor (name : String) : Descriptor := ⟨name, Suffix.typ, ""⟩

def termDescriptor (name : String) : Descriptor := ⟨name, Suffix.term, ""⟩

def metaDescriptor (name : String) : Descriptor := ⟨name, Suffix.meta, ""⟩

def methodDescriptor (name : String) : Descriptor := ⟨name, Suffix.method, ""⟩

def parameterDescriptor (name : String) : Descriptor := ⟨name, Suffix.parameter, ""⟩

def typeParameterDescriptor (name : String) : Descriptor := ⟨name, Suffix.typeParameter, ""⟩

/-- One character of the regex class `[\w$+-]` (ASCII word characters plus
`$`, `+`, `-`) tested by `isSimpleIdentifier`. -/
def isSimpleChar (c : Char) : Bool :=
  (('a' ≤ c && c ≤ 'z') || ('A' ≤ c && c ≤ 'Z') || ('0' ≤ c && c ≤ '9')
    || c = '_' || c = '$' || c = '+' || c = '-')

/-- `isSimpleIdentifier`: the name matches `/^[\w$+-]+$/i`, i.e. it is
non-empty and every character is in the class. -/
def isSimpleIdentifier (name : String) : Bool :=
  name ≠ "" && name.data.all isSimpleChar

/-- `name.replaceAll(btChar, '``')` on the character list: every backtick is
doubled (the pattern is a single character, so `replaceAll` doubles each
occurrence independently). -/
def doubleBt : List Char → List Char
  | [] => []
  | c :: rest => if c = btChar then btChar :: btChar :: doubleBt rest else c :: doubleBt rest

/-- String wrapper for `doubleBt`, modelling `desc.name.replaceAll(btChar, '``')`. -/
def doubleBackticks (s : String) : String := String.mk (doubleBt s.data)

/-- `escapedName`: empty names render as `''`; simple identifiers are emitted
verbatim; anything else is wrapped in backticks with internal backticks
doubled. -/
def escapedName (desc : Descriptor) : String :=
  if desc.name = "" then ""
  else if isSimpleIdentifier desc.name then desc.name
  else "`" ++ doubleBackticks desc.name ++ "`"

/-- `descriptorString`: canonical rendering of a descriptor.  The source's
`default` branch throws on an unknown suffix; the inductive `Suffix` makes
that branch unreachable here. -/
def descriptorString (desc : Descriptor) : String :=
  match desc.suffix with
  | Suffix.package => escapedName desc ++ "/"
  | Suffix.typ => escapedName desc ++ "#"
  | Suffix.term => escapedName desc ++ "."
  | Suffix.meta => escapedName desc ++ ":"
  | Suffix.method => escapedName desc ++ "(" ++ desc.disambiguator ++ ")."
  | Suffix.parameter => "(" ++ escapedName desc ++ ")"
  | Suffix.typeParameter => "[" ++ escapedName desc ++ "]"

/-! ## Parsing escaped names back

The symbol-string parser is not among the indexed sources (only the emitter
is), so the inverse direction is taken from the specification. -/

/-- Undoubling of backticks: every pair of consecutive backticks becomes one
backtick, scanning left to right.  Modelled from the spec: parsing an escaped
name undoubles the internal backticks. -/
def undoubleBt : List Char → List Char
  | [] => []
  | [c] => [c]
  | c1 :: c2 :: rest =>
    if c1 = btChar && c2 = btChar then btChar :: undoubleBt rest
    else c1 :: undoubleBt (c2 :: rest)

/-- Modelled from the spec: parsing the escaped form of a name back strips the
wrapping backticks and undoubles internal backticks; a form that is not
backtick-wrapped is already the name. -/
def parseEscapedName (s : String) : String :=
  if s.data.head? = some btChar ∧ s.data.getLast? = some btChar ∧ 2 ≤ s.data.length then
    String.mk (undoubleBt s.data.dropLast.tail)
  else s

/-! ### Round-trip lemmas -/

theorem undoubleBt_doubleBt (l : List Char) : undoubleBt (doubleBt l) = l := by
  induction l with
  | nil => rfl
  | cons c rest ih =>
    by_cases hc : c = btChar
    · subst hc
      simp [doubleBt, undoubleBt, ih]
    · simp only [doubleBt, if_neg hc]
      cases hrest : doubleBt rest with
      | nil =>
        cases rest with
        | nil => rfl
        | cons d ds =>
          exfalso
          simp only [doubleBt] at hrest
          by_cases hd : d = btChar <;> simp [hd] at hrest
      | cons d ds =>
        rw [undoubleBt, if_neg (by simp [hc]), ← hrest, ih]

theorem doubleBt_no_single_end (l : List Char) :
    (doubleBt l ++ [btChar]).getLast? = some btChar := by
  simp [List.getLast?_concat]

/-- The data of a string append is the append of datas. -/
theorem data_append (a b : String) : (a ++ b).data = a.data ++ b.data := rfl

theorem mk_data (s : String) : String.mk s.data = s := rfl

theorem data_eq_nil_iff (s : String) : s.data = [] ↔ s = "" := by
  constructor
  · intro h
    rw [← mk_data s, h]
  · intro h
    rw [h]

/-- Rendered form of a non-simple, non-empty name: backtick-wrapped with
doubled internal backticks. -/
theorem escapedName_data_of_not_simple (d : Descriptor) (h0 : d.name ≠ "")
    (hs : ¬ isSimpleIdentifier d.name) :
    (escapedName d).data = btChar :: (doubleBt d.name.data ++ [btChar]) := by
  unfold escapedName
  rw [if_neg h0, if_neg (by simp [hs])]
  rfl

/-- Claim C3 — *Escaping round-trip*: for any name, rendering it through the
codec's escaping and parsing the escaped form back recovers the original
name. -/
theorem claim_C3_round_trip (d : Descriptor) :
    parseEscapedName (escapedName d) = d.name := by
  by_cases h0 : d.name = ""
  · unfold escapedName
    rw [if_pos h0, h0]
    rfl
  · by_cases hs : isSimpleIdentifier d.name
    · have hesc : escapedName d = d.name := by
        unfold escapedName
        rw [if_neg h0, if_pos hs]
      rw [hesc]
      unfold parseEscapedName
      rw [if_neg ?_]
      intro ⟨hhead, _⟩
      cases hd : d.name.data with
      | nil => exact h0 ((data_eq_nil_iff d.name).1 hd)
      | cons c cs =>
        rw [hd] at hhead
        simp only [List.head?_cons, Option.some.injEq] at hhead
        have hs2 : d.name.data.all isSimpleChar = true := by
          unfold isSimpleIdentifier at hs
          simp only [Bool.and_eq_true] at hs
          exact hs.2
        rw [hd] at hs2
        simp only [List.all_cons, Bool.and_eq_true] at hs2
        rw [hhead] at hs2
        exact absurd hs2.1 (by decide)
    · have hdata := escapedName_data_of_not_simple d h0 hs
      unfold parseEscapedName
      rw [hdata]
      rw [if_pos ?_]
      · rw [show (btChar :: (doubleBt d.name.data ++ [btChar])).dropLast
            = btChar :: doubleBt d.name.data from ?_]
        · rw [List.tail_cons, undoubleBt_doubleBt, mk_data]
        · rw [← List.cons_append, List.dropLast_concat]
      · refine ⟨rfl, ?_, ?_⟩
        · rw [← List.cons_append, List.getLast?_concat]
        · simp

/-! ## Symbol identities

`LsifSymbol.ts` is not among the indexed sources.  Modelled from the spec:
`SymbolIdentity` is a tagged union — `Empty` (not indexable), `Local(index)`
(file-scoped), or `Global` (an owner chain of descriptors); a global symbol
string is the owner's string followed by the descriptor's rendering, and a
local symbol string is the scope marker `local` followed by a space and the
decimal index. -/

inductive LsifSymbol where
  | empty
  | localSymbol (index : Nat)
  | global (owner : LsifSymbol) (desc : Descriptor)
deriving DecidableEq, Repr

/-- Rendered symbol string.  Modelled from the spec: global = owner string ++
descriptor rendering; local = scope marker, one space, decimal index; empty
renders as the empty string. -/
def LsifSymbol.value : LsifSymbol → String
  | LsifSymbol.empty => ""
  | LsifSymbol.localSymbol index => "local " ++ toString index
  | LsifSymbol.global owner desc => owner.value ++ descriptorString desc

/-- `isEmpty()`.  Modelled from the spec: tests the `Empty` tag. -/
def LsifSymbol.isEmpty : LsifSymbol → Bool
  | LsifSymbol.empty => true
  | _ => false

/-- `isLocal()`.  Modelled from the spec: tests the `Local` tag. -/
def LsifSymbol.isLocal : LsifSymbol → Bool
  | LsifSymbol.localSymbol _ => true
  | _ => false

/-! ## The syntax tree

The checker-resolved syntax tree is an external collaborator.  Nodes are
arena indices into per-node lists: parents are allocated before children
(`wf_parent`), node `0` is the `SourceFile` root (`wf_root`), and the
declarations behind an import specifier's type were parsed before the
specifier (`wf_imports`); these arena-order facts give the resolver its
termination measure, exactly as the spec's design notes suggest for node
identity. -/

/-- The `ts.SyntaxKind`s distinguished by the indexer (every `ts.isXyz` test
used by `FileIndexer.ts`); `other` stands for all remaining kinds. -/
inductive SyntaxKind where
  | sourceFile
  | block
  | identifier
  | classDeclaration
  | classExpression
  | interfaceDeclaration
  | enumDeclaration
  | enumMember
  | variableDeclaration
  | variableStatement
  | variableDeclarationList
  | propertyDeclaration
  | propertySignature
  | methodDeclaration
  | methodSignature
  | functionDeclaration
  | moduleDeclaration
  | moduleBlock
  | propertyAssignment
  | shorthandPropertyAssignment
  | parameter
  | typeParameterDeclaration
  | constructorDeclaration
  | importSpecifier
  | importDeclaration
  | importClause
  | namedImports
  | other
deriving DecidableEq, Repr

/-- One file's checker-resolved syntax tree plus the checker answers the
indexer consumes, keyed by arena index.

* `names` models `node.name.getText()` (the empty string models an absent
  name node, which behaves like JavaScript's falsy `undefined` in the
  `if (name)` guards of `FileIndexer.descriptor`);
* `nameChildren` models the `node.name` child handle used by
  `declarationName`'s pointer-equality test;
* `importTargets` models `checker.getTypeAtLocation(node).symbol?.declarations`
  for import specifiers;
* `shorthandTargets` models
  `checker.getShorthandAssignmentValueSymbol(node)?.declarations`
  (`none` = no value symbol);
* `ranges` models `Range.fromNode(node).toLsif()`;
* `packageSymbol` models `packages.symbol(sourceFile.fileName)`, the external
  package resolver's answer for this file;
* `typeStrings`/`docStrings` model `checker.typeToString(...)` and the
  display-parts documentation for the node's symbol. -/
structure Tree where
  kinds : List SyntaxKind
  names : List String
  nameChildren : List (Option Nat)
  parents : List Nat
  importTargets : List (List Nat)
  shorthandTargets : List (Option (List Nat))
  ranges : List (List Nat)
  typeStrings : List String
  docStrings : List String
  packageSymbol : Option LsifSymbol
  wf_root : kinds.getD 0 SyntaxKind.other = SyntaxKind.sourceFile
  wf_parent : ∀ i, 0 < i → parents.getD i 0 < i
  wf_imports : ∀ i, ∀ m ∈ importTargets.getD i [], m < i

def kindOf (t : Tree) (n : Nat) : SyntaxKind := t.kinds.getD n SyntaxKind.other

def nameOf (t : Tree) (n : Nat) : String := t.names.getD n ""

def nameChildOf (t : Tree) (n : Nat) : Option Nat := t.nameChildren.getD n none

def parentOf (t : Tree) (n : Nat) : Nat := t.parents.getD n 0

def importTargetsOf (t : Tree) (n : Nat) : List Nat := t.importTargets.getD n []

def shorthandTargetsOf (t : Tree) (n : Nat) : Option (List Nat) :=
  t.shorthandTargets.getD n none

def rangeOf (t : Tree) (n : Nat) : List Nat := t.ranges.getD n []

def typeStringOf (t : Tree) (n : Nat) : String := t.typeStrings.getD n ""

def docStringOf (t : Tree) (n : Nat) : String := t.docStrings.getD n ""

/-- Out-of-arena indices have kind `other`; hence any node whose kind is a
real kind is in the arena. -/
theorem parentOf_lt (t : Tree) (n : Nat) (h : 0 < n) : parentOf t n < n :=
  t.wf_parent n h

theorem kindOf_zero (t : Tree) : kindOf t 0 = SyntaxKind.sourceFile := t.wf_root

theorem ne_zero_of_kind_ne_sourceFile (t : Tree) (n : Nat)
    (h : kindOf t n ≠ SyntaxKind.sourceFile) : 0 < n := by
  rcases Nat.eq_zero_or_pos n with h0 | h0
  · exact absurd (h0 ▸ kindOf_zero t) h
  · exact h0

/-- Discharges the `wf_parent` obligation of a concrete tree from the
decidable bounded statement. -/
theorem wf_parent_of_bounded (ps : List Nat)
    (h : ∀ i, i < ps.length → 0 < i → ps.getD i 0 < i) :
    ∀ i, 0 < i → ps.getD i 0 < i := by
  intro i hi
  by_cases hlen : i < ps.length
  · exact h i hlen hi
  · rw [List.getD_eq_default _ _ (Nat.le_of_not_lt hlen)]
    exact hi

/-- Discharges the `wf_imports` obligation of a concrete tree from the
decidable bounded statement. -/
theorem wf_imports_of_bounded (ts : List (List Nat))
    (h : ∀ i, i < ts.length → ∀ m ∈ ts.getD i [], m < i) :
    ∀ i, ∀ m ∈ ts.getD i [], m < i := by
  intro i m hm
  by_cases hlen : i < ts.length
  · exact h i hlen m hm
  · rw [List.getD_eq_default _ _ (Nat.le_of_not_lt hlen)] at hm
    cases hm

/-! ## Indexer state (from `FileIndexer.ts`)

The two symbol tables are the `globalSymbolTable` shared across the run and
the per-file `localSymbolTable`; `localCounter` and `propertyCounters` are
the per-file `Counter` instances.  `Counter` itself is not among the indexed
sources.  Modelled from the spec: a counter starts at the fixed initial value
`0`, and `next()` returns the current value and increments (the local
indices and the per-property suffixes are zero-based). -/

structure IndexState where
  globalT : Nat → Option LsifSymbol
  localT : Nat → Option LsifSymbol
  localCounter : Nat
  propCounters : String → Option Nat

/-- The run-initial state: both tables empty, all counters fresh. -/
def initialState : IndexState :=
  ⟨fun _ => none, fun _ => none, 0, fun _ => none⟩

/-- Functional update of a node-keyed table. -/
def updT (f : Nat → Option LsifSymbol) (k : Nat) (v : LsifSymbol) :
    Nat → Option LsifSymbol :=
  fun i => if i = k then some v else f i

/-- `this.globalSymbolTable.get(node) || this.localSymbolTable.get(node)`. -/
def fromCache (st : IndexState) (n : Nat) : Option LsifSymbol :=
  match st.globalT n with
  | some s => some s
  | none => st.localT n

/-- `FileIndexer.cached`: store into the global table and return the symbol. -/
def cached (n : Nat) (symbol : LsifSymbol) (st : IndexState) :
    LsifSymbol × IndexState :=
  (symbol, { st with globalT := updT st.globalT n symbol })

/-- `FileIndexer.newLocalSymbol`: mint `LsifSymbol.local(localCounter.next())`
and store it into the local table. -/
def newLocalSymbol (n : Nat) (st : IndexState) : LsifSymbol × IndexState :=
  let symbol := LsifSymbol.localSymbol st.localCounter
  (symbol, { st with
              localT := updT st.localT n symbol
              localCounter := st.localCounter + 1 })

/-- `propertyCounters.get(name)` with the `if (!counter) set(name, new Counter())`
initialisation of `FileIndexer.lsifSymbol`'s property-assignment case. -/
def ensurePropCounter (st : IndexState) (name : String) : IndexState :=
  match st.propCounters name with
  | some _ => st
  | none => { st with propCounters := fun s => if s = name then some 0 else st.propCounters s }

/-- Current value of the (ensured) property counter, i.e. what `counter.next()`
returns. -/
def propCounterValue (st : IndexState) (name : String) : Nat :=
  (st.propCounters name).getD 0

/-- The increment half of `counter.next()`. -/
def bumpPropCounter (st : IndexState) (name : String) : IndexState :=
  { st with propCounters :=
      fun s => if s = name then some (propCounterValue st name + 1) else st.propCounters s }

/-- `isAnonymousContainerOfSymbols` (module-level helper of `FileIndexer.ts`). -/
def isAnonymousContainerOfSymbols (k : SyntaxKind) : Bool :=
  k = SyntaxKind.moduleBlock ||
  k = SyntaxKind.importDeclaration ||
  k = SyntaxKind.importClause ||
  k = SyntaxKind.namedImports ||
  k = SyntaxKind.variableStatement ||
  k = SyntaxKind.variableDeclarationList

/-- `FileIndexer.descriptor`: the kind-to-descriptor dispatch.  The `if (name)`
guards of the class-like and function/method cases are JavaScript falsiness
tests on `node.name?.getText()`; an absent name is modelled by `""`, which is
falsy exactly like `undefined`. -/
def descriptor (t : Tree) (n : Nat) : Option Descriptor :=
  if kindOf t n = SyntaxKind.interfaceDeclaration ∨ kindOf t n = SyntaxKind.enumDeclaration then
    some (typeDescriptor (nameOf t n))
  else if kindOf t n = SyntaxKind.classDeclaration ∨ kindOf t n = SyntaxKind.classExpression then
    if nameOf t n ≠ "" then some (typeDescriptor (nameOf t n)) else none
  else if kindOf t n = SyntaxKind.functionDeclaration ∨ kindOf t n = SyntaxKind.methodSignature
      ∨ kindOf t n = SyntaxKind.methodDeclaration then
    if nameOf t n ≠ "" then some (methodDescriptor (nameOf t n)) else none
  else if kindOf t n = SyntaxKind.constructorDeclaration then
    some (methodDescriptor "<constructor>")
  else if kindOf t n = SyntaxKind.propertyDeclaration ∨ kindOf t n = SyntaxKind.propertySignature
      ∨ kindOf t n = SyntaxKind.enumMember ∨ kindOf t n = SyntaxKind.variableDeclaration then
    some (termDescriptor (nameOf t n))
  else if kindOf t n = SyntaxKind.moduleDeclaration then
    some (packageDescriptor (nameOf t n))
  else if kindOf t n = SyntaxKind.parameter then
    some (parameterDescriptor (nameOf t n))
  else if kindOf t n = SyntaxKind.typeParameterDeclaration then
    some (typeParameterDescriptor (nameOf t n))
  else none

/-- `FileIndexer.lsifSymbol`, fuelled.  Structural recursion on `fuel` keeps
every application kernel-computable; `wf_parent`/`wf_root`/`wf_imports`
guarantee that fuel `n + 1` never reaches the fuel-exhaustion branch (see
`lsifSymbolF_fuel_irrel`), so the wrapper `lsifSymbol` below is the faithful
total resolver.  Branches appear in source order: cache hit; block;
source file (package resolver); object-literal property assignment
(per-name counter, `Meta` descriptor owned by the file's symbol); owner
resolution with `Empty`/`Local` propagation; transparent containers; import
specifiers (adopt the first aliased declaration); kind dispatch; `Local`
fallback. -/
def lsifSymbolF (t : Tree) : Nat → IndexState → Nat → LsifSymbol × IndexState
  | 0, st, _ => (LsifSymbol.empty, st)
  | fuel + 1, st, n =>
    match fromCache st n with
    | some s => (s, st)
    | none =>
      if kindOf t n = SyntaxKind.block then (LsifSymbol.empty, st)
      else if kindOf t n = SyntaxKind.sourceFile then
        match t.packageSymbol with
        | none => cached n LsifSymbol.empty st
        | some pkg => cached n pkg st
      else if kindOf t n = SyntaxKind.propertyAssignment
          ∨ kindOf t n = SyntaxKind.shorthandPropertyAssignment then
        let name := nameOf t n
        let st1 := ensurePropCounter st name
        let fileRes := lsifSymbolF t fuel st1 0
        let c := propCounterValue fileRes.2 name
        let st2 := bumpPropCounter fileRes.2 name
        cached n (LsifSymbol.global fileRes.1 (metaDescriptor (name ++ toString c))) st2
      else
        let ownerRes := lsifSymbolF t fuel st (parentOf t n)
        if ownerRes.1.isEmpty || ownerRes.1.isLocal then newLocalSymbol n ownerRes.2
        else if isAnonymousContainerOfSymbols (kindOf t n) then
          let againRes := lsifSymbolF t fuel ownerRes.2 (parentOf t n)
          cached n againRes.1 againRes.2
        else if kindOf t n = SyntaxKind.importSpecifier then
          match importTargetsOf t n with
          | d :: _ => lsifSymbolF t fuel ownerRes.2 d
          | [] =>
            match descriptor t n with
            | some desc => cached n (LsifSymbol.global ownerRes.1 desc) ownerRes.2
            | none => newLocalSymbol n ownerRes.2
        else
          match descriptor t n with
          | some desc => cached n (LsifSymbol.global ownerRes.1 desc) ownerRes.2
          | none => newLocalSymbol n ownerRes.2

/-- `FileIndexer.lsifSymbol`: the resolver with enough fuel for node `n`. -/
def lsifSymbol (t : Tree) (st : IndexState) (n : Nat) : LsifSymbol × IndexState :=
  lsifSymbolF t (n + 1) st n

/-! ### Branch-extraction lemmas for the resolver -/

theorem fromCache_eq_none_iff (st : IndexState) (n : Nat) :
    fromCache st n = none ↔ st.globalT n = none ∧ st.localT n = none := by
  unfold fromCache
  cases h : st.globalT n <;> simp [h]

theorem updT_self (f : Nat → Option LsifSymbol) (k : Nat) (v : LsifSymbol) :
    updT f k v k = some v := by
  simp [updT]

theorem updT_ne (f : Nat → Option LsifSymbol) (k : Nat) (v : LsifSymbol)
    (i : Nat) (h : i ≠ k) : updT f k v i = f i := by
  simp [updT, h]

theorem ensurePropCounter_globalT (st : IndexState) (s : String) :
    (ensurePropCounter st s).globalT = st.globalT := by
  unfold ensurePropCounter
  cases st.propCounters s <;> rfl

theorem ensurePropCounter_localT (st : IndexState) (s : String) :
    (ensurePropCounter st s).localT = st.localT := by
  unfold ensurePropCounter
  cases st.propCounters s <;> rfl

theorem bumpPropCounter_globalT (st : IndexState) (s : String) :
    (bumpPropCounter st s).globalT = st.globalT := rfl

theorem bumpPropCounter_localT (st : IndexState) (s : String) :
    (bumpPropCounter st s).localT = st.localT := rfl

theorem F_cache_hit (t : Tree) (f : Nat) (st : IndexState) (n : Nat)
    (s : LsifSymbol) (hc : fromCache st n = some s) :
    lsifSymbolF t (f + 1) st n = (s, st) := by
  simp only [lsifSymbolF, hc]

theorem F_block (t : Tree) (f : Nat) (st : IndexState) (n : Nat)
    (hc : fromCache st n = none) (hb : kindOf t n = SyntaxKind.block) :
    lsifSymbolF t (f + 1) st n = (LsifSymbol.empty, st) := by
  simp only [lsifSymbolF, hc]
  rw [if_pos hb]

theorem F_sourceFile (t : Tree) (f : Nat) (st : IndexState) (n : Nat)
    (hc : fromCache st n = none) (hs : kindOf t n = SyntaxKind.sourceFile) :
    lsifSymbolF t (f + 1) st n =
      (match t.packageSymbol with
        | none => cached n LsifSymbol.empty st
        | some pkg => cached n pkg st) := by
  simp only [lsifSymbolF, hc]
  rw [if_neg (by simp [hs]), if_pos hs]

theorem F_propertyAssignment (t : Tree) (f : Nat) (st : IndexState) (n : Nat)
    (hc : fromCache st n = none)
    (hpa : kindOf t n = SyntaxKind.propertyAssignment
      ∨ kindOf t n = SyntaxKind.shorthandPropertyAssignment) :
    lsifSymbolF t (f + 1) st n =
      cached n
        (LsifSymbol.global (lsifSymbolF t f (ensurePropCounter st (nameOf t n)) 0).1
          (metaDescriptor (nameOf t n ++
            toString (propCounterValue
              (lsifSymbolF t f (ensurePropCounter st (nameOf t n)) 0).2 (nameOf t n)))))
        (bumpPropCounter (lsifSymbolF t f (ensurePropCounter st (nameOf t n)) 0).2
          (nameOf t n)) := by
  simp only [lsifSymbolF, hc]
  rw [if_neg (by rcases hpa with h | h <;> simp [h]),
      if_neg (by rcases hpa with h | h <;> simp [h]), if_pos hpa]

/-- Kinds that fall through to the owner-resolution part of `lsifSymbol`. -/
def ownerStage (t : Tree) (n : Nat) : Prop :=
  kindOf t n ≠ SyntaxKind.block ∧ kindOf t n ≠ SyntaxKind.sourceFile ∧
    ¬(kindOf t n = SyntaxKind.propertyAssignment
      ∨ kindOf t n = SyntaxKind.shorthandPropertyAssignment)

theorem F_owner_local (t : Tree) (f : Nat) (st : IndexState) (n : Nat)
    (hc : fromCache st n = none) (ho : ownerStage t n)
    (hbad : ((lsifSymbolF t f st (parentOf t n)).1.isEmpty
      || (lsifSymbolF t f st (parentOf t n)).1.isLocal) = true) :
    lsifSymbolF t (f + 1) st n =
      newLocalSymbol n (lsifSymbolF t f st (parentOf t n)).2 := by
  obtain ⟨h1, h2, h3⟩ := ho
  simp only [lsifSymbolF, hc]
  rw [if_neg h1, if_neg h2, if_neg h3]
  simp [hbad]

theorem F_anonymous (t : Tree) (f : Nat) (st : IndexState) (n : Nat)
    (hc : fromCache st n = none) (ho : ownerStage t n)
    (hbad : ((lsifSymbolF t f st (parentOf t n)).1.isEmpty
      || (lsifSymbolF t f st (parentOf t n)).1.isLocal) = false)
    (ha : isAnonymousContainerOfSymbols (kindOf t n) = true) :
    lsifSymbolF t (f + 1) st n =
      cached n
        (lsifSymbolF t f (lsifSymbolF t f st (parentOf t n)).2 (parentOf t n)).1
        (lsifSymbolF t f (lsifSymbolF t f st (parentOf t n)).2 (parentOf t n)).2 := by
  obtain ⟨h1, h2, h3⟩ := ho
  simp only [lsifSymbolF, hc]
  rw [if_neg h1, if_neg h2, if_neg h3]
  simp only [hbad]
  rw [if_neg (by simp), if_pos ha]

theorem F_importSpecifier_cons (t : Tree) (f : Nat) (st : IndexState) (n : Nat)
    (hc : fromCache st n = none) (ho : ownerStage t n)
    (hbad : ((lsifSymbolF t f st (parentOf t n)).1.isEmpty
      || (lsifSymbolF t f st (parentOf t n)).1.isLocal) = false)
    (ha : isAnonymousContainerOfSymbols (kindOf t n) = false)
    (hi : kindOf t n = SyntaxKind.importSpecifier)
    (d : Nat) (rest : List Nat) (hT : importTargetsOf t n = d :: rest) :
    lsifSymbolF t (f + 1) st n =
      lsifSymbolF t f (lsifSymbolF t f st (parentOf t n)).2 d := by
  obtain ⟨h1, h2, h3⟩ := ho
  simp only [lsifSymbolF, hc]
  rw [if_neg h1, if_neg h2, if_neg h3]
  simp only [hbad]
  rw [if_neg (by simp), if_neg (by simp [ha]), if_pos hi, hT]

theorem F_descriptor_some (t : Tree) (f : Nat) (st : IndexState) (n : Nat)
    (hc : fromCache st n = none) (ho : ownerStage t n)
    (hbad : ((lsifSymbolF t f st (parentOf t n)).1.isEmpty
      || (lsifSymbolF t f st (parentOf t n)).1.isLocal) = false)
    (ha : isAnonymousContainerOfSymbols (kindOf t n) = false)
    (hi : kindOf t n ≠ SyntaxKind.importSpecifier)
    (desc : Descriptor) (hd : descriptor t n = some desc) :
    lsifSymbolF t (f + 1) st n =
      cached n
        (LsifSymbol.global (lsifSymbolF t f st (parentOf t n)).1 desc)
        (lsifSymbolF t f st (parentOf t n)).2 := by
  obtain ⟨h1, h2, h3⟩ := ho
  simp only [lsifSymbolF, hc]
  rw [if_neg h1, if_neg h2, if_neg h3]
  simp only [hbad]
  rw [if_neg (by simp), if_neg (by simp [ha]), if_neg hi, hd]

theorem F_descriptor_none (t : Tree) (f : Nat) (st : IndexState) (n : Nat)
    (hc : fromCache st n = none) (ho : ownerStage t n)
    (hbad : ((lsifSymbolF t f st (parentOf t n)).1.isEmpty
      || (lsifSymbolF t f st (parentOf t n)).1.isLocal) = false)
    (ha : isAnonymousContainerOfSymbols (kindOf t n) = false)
    (hi : kindOf t n ≠ SyntaxKind.importSpecifier)
    (hd : descriptor t n = none) :
    lsifSymbolF t (f + 1) st n =
      newLocalSymbol n (lsifSymbolF t f st (parentOf t n)).2 := by
  obtain ⟨h1, h2, h3⟩ := ho
  simp only [lsifSymbolF, hc]
  rw [if_neg h1, if_neg h2, if_neg h3]
  simp only [hbad]
  rw [if_neg (by simp), if_neg (by simp [ha]), if_neg hi, hd]

/-! ## Occurrence emission (from `FileIndexer.ts`) -/

/-- `scip.Occurrence` as constructed by the emitter: range, symbol string,
role bitmask (`symbol_roles` defaults to `0` when omitted, the protobuf
default used by `handleShorthandPropertyDefinition`). -/
structure Occurrence where
  range : List Nat
  symbol : String
  symbol_roles : Nat
deriving DecidableEq, Repr

/-- `scip.SymbolInformation` as constructed by `addSymbolInformation`. -/
structure SymbolInformation where
  symbol : String
  documentation : List String
deriving DecidableEq, Repr

/-- The per-file `scip.Document`: occurrence list plus symbol-metadata list,
appended to in source order. -/
structure Document where
  occurrences : List Occurrence
  symbols : List SymbolInformation
deriving DecidableEq, Repr

def emptyDocument : Document := ⟨[], []⟩

/-- `lsiftyped.SymbolRole.Definition`, the is-definition role bit. -/
def definitionRole : Nat := 1

/-- `FileIndexer.declarationName`: the `name` child for the declaration kinds
of the is-definition dispatch table, `undefined` for every other kind. -/
def declarationName (t : Tree) (n : Nat) : Option Nat :=
  if kindOf t n = SyntaxKind.enumDeclaration
      ∨ kindOf t n = SyntaxKind.variableDeclaration
      ∨ kindOf t n = SyntaxKind.propertyDeclaration
      ∨ kindOf t n = SyntaxKind.methodSignature
      ∨ kindOf t n = SyntaxKind.methodDeclaration
      ∨ kindOf t n = SyntaxKind.propertySignature
      ∨ kindOf t n = SyntaxKind.functionDeclaration
      ∨ kindOf t n = SyntaxKind.moduleDeclaration
      ∨ kindOf t n = SyntaxKind.propertyAssignment
      ∨ kindOf t n = SyntaxKind.shorthandPropertyAssignment
      ∨ kindOf t n = SyntaxKind.parameter
      ∨ kindOf t n = SyntaxKind.typeParameterDeclaration
      ∨ kindOf t n = SyntaxKind.interfaceDeclaration then
    nameChildOf t n
  else none

/-- `FileIndexer.addSymbolInformation`: push the type signature as a fenced
code block plus the documentation comment. -/
def addSymbolInformation (t : Tree) (idn : Nat) (symbol : LsifSymbol)
    (doc : Document) : Document :=
  { doc with symbols := doc.symbols ++
      [⟨symbol.value, ["```ts\n" ++ typeStringOf t idn ++ "\n```", docStringOf t idn]⟩] }

/-- The loop body of `handleShorthandPropertyDefinition`: resolve each
declaration of the shorthand's value symbol, skip empty identities, and push
a pure-reference occurrence (no role bits) at the identifier's range. -/
def shorthandLoop (t : Tree) (range : List Nat) :
    List Nat → IndexState → Document → IndexState × Document
  | [], st, doc => (st, doc)
  | d :: rest, st, doc =>
    let r := lsifSymbol t st d
    if r.1.isEmpty then shorthandLoop t range rest r.2 doc
    else shorthandLoop t range rest r.2
      { doc with occurrences := doc.occurrences ++ [⟨range, r.1.value, 0⟩] }

/-- `FileIndexer.handleShorthandPropertyDefinition`. -/
def handleShorthandPropertyDefinition (t : Tree) (declaration : Nat)
    (range : List Nat) (st : IndexState) (doc : Document) :
    IndexState × Document :=
  if kindOf t declaration = SyntaxKind.shorthandPropertyAssignment then
    match shorthandTargetsOf t declaration with
    | none => (st, doc)
    | some decls => shorthandLoop t range decls st doc
  else (st, doc)

/-- The `for (const declaration of sym?.declarations || [])` loop of
`visitIdentifier`: resolve each declaration, skip empty identities, push the
occurrence, and on definitions also push the symbol metadata and apply the
shorthand dual-occurrence rule. -/
def visitIdentifierLoop (t : Tree) (idn : Nat) (range : List Nat) (role : Nat)
    (isDefinition : Bool) :
    List Nat → IndexState → Document → IndexState × Document
  | [], st, doc => (st, doc)
  | d :: rest, st, doc =>
    let r := lsifSymbol t st d
    if r.1.isEmpty then visitIdentifierLoop t idn range role isDefinition rest r.2 doc
    else
      let doc1 := { doc with occurrences := doc.occurrences ++ [⟨range, r.1.value, role⟩] }
      if isDefinition then
        let doc2 := addSymbolInformation t idn r.1 doc1
        let next := handleShorthandPropertyDefinition t d range r.2 doc2
        visitIdentifierLoop t idn range role isDefinition rest next.1 next.2
      else visitIdentifierLoop t idn range role isDefinition rest r.2 doc1

/-- `FileIndexer.visitIdentifier` for an identifier node `idn` whose checker
symbol has declarations `decls`: compute the identifier's range, decide
is-definition by pointer equality with the parent's declared-name child, and
run the declaration loop. -/
def visitIdentifier (t : Tree) (st : IndexState) (doc : Document) (idn : Nat)
    (decls : List Nat) : IndexState × Document :=
  let range := rangeOf t idn
  let isDefinition := declarationName t (parentOf t idn) = some idn
  let role := if isDefinition then definitionRole else 0
  visitIdentifierLoop t idn range role (decide isDefinition) decls st doc

theorem F_importSpecifier_nil (t : Tree) (f : Nat) (st : IndexState) (n : Nat)
    (hc : fromCache st n = none) (ho : ownerStage t n)
    (hbad : ((lsifSymbolF t f st (parentOf t n)).1.isEmpty
      || (lsifSymbolF t f st (parentOf t n)).1.isLocal) = false)
    (ha : isAnonymousContainerOfSymbols (kindOf t n) = false)
    (hi : kindOf t n = SyntaxKind.importSpecifier)
    (hT : importTargetsOf t n = []) :
    lsifSymbolF t (f + 1) st n =
      (match descriptor t n with
        | some desc =>
          cached n (LsifSymbol.global (lsifSymbolF t f st (parentOf t n)).1 desc)
            (lsifSymbolF t f st (parentOf t n)).2
        | none => newLocalSymbol n (lsifSymbolF t f st (parentOf t n)).2) := by
  obtain ⟨h1, h2, h3⟩ := ho
  simp only [lsifSymbolF, hc]
  rw [if_neg h1, if_neg h2, if_neg h3]
  simp only [hbad]
  rw [if_neg (by simp), if_neg (by simp [ha]), if_pos hi, hT]

/-- Any fuel beyond the node's arena index gives the same answer; hence the
fuelled function is a faithful rendering of the source's well-founded
recursion. -/
theorem lsifSymbolF_fuel_irrel (t : Tree) :
    ∀ f1 f2 st n, n < f1 → n < f2 →
      lsifSymbolF t f1 st n = lsifSymbolF t f2 st n := by
  intro f1
  induction f1 with
  | zero => intro f2 st n h1 h2; omega
  | succ m ih =>
    intro f2 st n h1 h2
    cases f2 with
    | zero => omega
    | succ k =>
      cases hc : fromCache st n with
      | some s => rw [F_cache_hit t m st n s hc, F_cache_hit t k st n s hc]
      | none =>
        by_cases hb : kindOf t n = SyntaxKind.block
        · rw [F_block t m st n hc hb, F_block t k st n hc hb]
        · by_cases hsf : kindOf t n = SyntaxKind.sourceFile
          · rw [F_sourceFile t m st n hc hsf, F_sourceFile t k st n hc hsf]
          · have hn : 0 < n := ne_zero_of_kind_ne_sourceFile t n hsf
            by_cases hpa : kindOf t n = SyntaxKind.propertyAssignment
                ∨ kindOf t n = SyntaxKind.shorthandPropertyAssignment
            · rw [F_propertyAssignment t m st n hc hpa,
                  F_propertyAssignment t k st n hc hpa,
                  ih k (ensurePropCounter st (nameOf t n)) 0 (by omega) (by omega)]
            · have ho : ownerStage t n := ⟨hb, hsf, hpa⟩
              have hp := parentOf_lt t n hn
              have hou : lsifSymbolF t m st (parentOf t n)
                  = lsifSymbolF t k st (parentOf t n) :=
                ih k st (parentOf t n) (by omega) (by omega)
              by_cases hbad : ((lsifSymbolF t m st (parentOf t n)).1.isEmpty
                  || (lsifSymbolF t m st (parentOf t n)).1.isLocal) = true
              · have hbad2 := hbad
                rw [hou] at hbad2
                rw [F_owner_local t m st n hc ho hbad,
                    F_owner_local t k st n hc ho hbad2, hou]
              · have hbadf : ((lsifSymbolF t m st (parentOf t n)).1.isEmpty
                    || (lsifSymbolF t m st (parentOf t n)).1.isLocal) = false := by
                  revert hbad
                  cases ((lsifSymbolF t m st (parentOf t n)).1.isEmpty
                    || (lsifSymbolF t m st (parentOf t n)).1.isLocal) <;> simp
                have hbadf2 := hbadf
                rw [hou] at hbadf2
                by_cases hanon : isAnonymousContainerOfSymbols (kindOf t n) = true
                · rw [F_anonymous t m st n hc ho hbadf hanon,
                      F_anonymous t k st n hc ho hbadf2 hanon, hou,
                      ih k (lsifSymbolF t k st (parentOf t n)).2 (parentOf t n)
                        (by omega) (by omega)]
                · have hanonf : isAnonymousContainerOfSymbols (kindOf t n) = false := by
                    revert hanon
                    cases isAnonymousContainerOfSymbols (kindOf t n) <;> simp
                  by_cases hi : kindOf t n = SyntaxKind.importSpecifier
                  · cases hT : importTargetsOf t n with
                    | nil =>
                      rw [F_importSpecifier_nil t m st n hc ho hbadf hanonf hi hT,
                          F_importSpecifier_nil t k st n hc ho hbadf2 hanonf hi hT, hou]
                    | cons d rest =>
                      have hd : d < n := t.wf_imports n d (by rw [show t.importTargets.getD n [] = d :: rest from hT]; exact List.mem_cons_self d rest)
                      rw [F_importSpecifier_cons t m st n hc ho hbadf hanonf hi d rest hT,
                          F_importSpecifier_cons t k st n hc ho hbadf2 hanonf hi d rest hT, hou,
                          ih k (lsifSymbolF t k st (parentOf t n)).2 d (by omega) (by omega)]
                  · cases hd : descriptor t n with
                    | some desc =>
                      rw [F_descriptor_some t m st n hc ho hbadf hanonf hi desc hd,
                          F_descriptor_some t k st n hc ho hbadf2 hanonf hi desc hd, hou]
                    | none =>
                      rw [F_descriptor_none t m st n hc ho hbadf hanonf hi hd,
                          F_descriptor_none t k st n hc ho hbadf2 hanonf hi hd, hou]

/-! ### Branch lemmas for the total resolver -/

theorem lsifSymbol_cache_hit (t : Tree) (st : IndexState) (n : Nat)
    (s : LsifSymbol) (hc : fromCache st n = some s) :
    lsifSymbol t st n = (s, st) :=
  F_cache_hit t n st n s hc

theorem lsifSymbol_block (t : Tree) (st : IndexState) (n : Nat)
    (hc : fromCache st n = none) (hb : kindOf t n = SyntaxKind.block) :
    lsifSymbol t st n = (LsifSymbol.empty, st) :=
  F_block t n st n hc hb

theorem lsifSymbol_sourceFile (t : Tree) (st : IndexState) (n : Nat)
    (hc : fromCache st n = none) (hs : kindOf t n = SyntaxKind.sourceFile) :
    lsifSymbol t st n =
      (match t.packageSymbol with
        | none => cached n LsifSymbol.empty st
        | some pkg => cached n pkg st) :=
  F_sourceFile t n st n hc hs

/-- Inner fuelled calls below node `n` rewrite to the total resolver. -/
theorem F_at_eq_lsifSymbol (t : Tree) (st : IndexState) (n m : Nat) (h : m < n) :
    lsifSymbolF t n st m = lsifSymbol t st m :=
  lsifSymbolF_fuel_irrel t n (m + 1) st m h (Nat.lt_succ_self m)

theorem lsifSymbol_propertyAssignment (t : Tree) (st : IndexState) (n : Nat)
    (hc : fromCache st n = none)
    (hpa : kindOf t n = SyntaxKind.propertyAssignment
      ∨ kindOf t n = SyntaxKind.shorthandPropertyAssignment) :
    lsifSymbol t st n =
      cached n
        (LsifSymbol.global (lsifSymbol t (ensurePropCounter st (nameOf t n)) 0).1
          (metaDescriptor (nameOf t n ++
            toString (propCounterValue
              (lsifSymbol t (ensurePropCounter st (nameOf t n)) 0).2 (nameOf t n)))))
        (bumpPropCounter (lsifSymbol t (ensurePropCounter st (nameOf t n)) 0).2
          (nameOf t n)) := by
  have hn : 0 < n := ne_zero_of_kind_ne_sourceFile t n (by
    rcases hpa with h | h <;> simp [h])
  have := F_propertyAssignment t n st n hc hpa
  rwa [F_at_eq_lsifSymbol t (ensurePropCounter st (nameOf t n)) n 0 hn] at this

theorem lsifSymbol_owner_local (t : Tree) (st : IndexState) (n : Nat)
    (hc : fromCache st n = none) (ho : ownerStage t n)
    (hbad : ((lsifSymbol t st (parentOf t n)).1.isEmpty
      || (lsifSymbol t st (parentOf t n)).1.isLocal) = true) :
    lsifSymbol t st n = newLocalSymbol n (lsifSymbol t st (parentOf t n)).2 := by
  have hn : 0 < n := ne_zero_of_kind_ne_sourceFile t n ho.2.1
  have hp := parentOf_lt t n hn
  have := F_owner_local t n st n hc ho
    (by rwa [F_at_eq_lsifSymbol t st n (parentOf t n) hp])
  rwa [F_at_eq_lsifSymbol t st n (parentOf t n) hp] at this

theorem lsifSymbol_anonymous (t : Tree) (st : IndexState) (n : Nat)
    (hc : fromCache st n = none) (ho : ownerStage t n)
    (hbad : ((lsifSymbol t st (parentOf t n)).1.isEmpty
      || (lsifSymbol t st (parentOf t n)).1.isLocal) = false)
    (ha : isAnonymousContainerOfSymbols (kindOf t n) = true) :
    lsifSymbol t st n =
      cached n
        (lsifSymbol t (lsifSymbol t st (parentOf t n)).2 (parentOf t n)).1
        (lsifSymbol t (lsifSymbol t st (parentOf t n)).2 (parentOf t n)).2 := by
  have hn : 0 < n := ne_zero_of_kind_ne_sourceFile t n ho.2.1
  have hp := parentOf_lt t n hn
  have := F_anonymous t n st n hc ho
    (by rwa [F_at_eq_lsifSymbol t st n (parentOf t n) hp]) ha
  rwa [F_at_eq_lsifSymbol t st n (parentOf t n) hp,
       F_at_eq_lsifSymbol t (lsifSymbol t st (parentOf t n)).2 n (parentOf t n) hp] at this

theorem lsifSymbol_importSpecifier_cons (t : Tree) (st : IndexState) (n : Nat)
    (hc : fromCache st n = none) (ho : ownerStage t n)
    (hbad : ((lsifSymbol t st (parentOf t n)).1.isEmpty
      || (lsifSymbol t st (parentOf t n)).1.isLocal) = false)
    (ha : isAnonymousContainerOfSymbols (kindOf t n) = false)
    (hi : kindOf t n = SyntaxKind.importSpecifier)
    (d : Nat) (rest : List Nat) (hT : importTargetsOf t n = d :: rest) :
    lsifSymbol t st n = lsifSymbol t (lsifSymbol t st (parentOf t n)).2 d := by
  have hn : 0 < n := ne_zero_of_kind_ne_sourceFile t n ho.2.1
  have hp := parentOf_lt t n hn
  have hd : d < n := t.wf_imports n d (by
    rw [show t.importTargets.getD n [] = d :: rest from hT]
    exact List.mem_cons_self d rest)
  have := F_importSpecifier_cons t n st n hc ho
    (by rwa [F_at_eq_lsifSymbol t st n (parentOf t n) hp]) ha hi d rest hT
  rwa [F_at_eq_lsifSymbol t st n (parentOf t n) hp,
       F_at_eq_lsifSymbol t (lsifSymbol t st (parentOf t n)).2 n d hd] at this

theorem lsifSymbol_importSpecifier_nil (t : Tree) (st : IndexState) (n : Nat)
    (hc : fromCache st n = none) (ho : ownerStage t n)
    (hbad : ((lsifSymbol t st (parentOf t n)).1.isEmpty
      || (lsifSymbol t st (parentOf t n)).1.isLocal) = false)
    (ha : isAnonymousContainerOfSymbols (kindOf t n) = false)
    (hi : kindOf t n = SyntaxKind.importSpecifier)
    (hT : importTargetsOf t n = []) :
    lsifSymbol t st n =
      (match descriptor t n with
        | some desc =>
          cached n (LsifSymbol.global (lsifSymbol t st (parentOf t n)).1 desc)
            (lsifSymbol t st (parentOf t n)).2
        | none => newLocalSymbol n (lsifSymbol t st (parentOf t n)).2) := by
  have hn : 0 < n := ne_zero_of_kind_ne_sourceFile t n ho.2.1
  have hp := parentOf_lt t n hn
  have := F_importSpecifier_nil t n st n hc ho
    (by rwa [F_at_eq_lsifSymbol t st n (parentOf t n) hp]) ha hi hT
  rwa [F_at_eq_lsifSymbol t st n (parentOf t n) hp] at this

theorem lsifSymbol_descriptor_some (t : Tree) (st : IndexState) (n : Nat)
    (hc : fromCache st n = none) (ho : ownerStage t n)
    (hbad : ((lsifSymbol t st (parentOf t n)).1.isEmpty
      || (lsifSymbol t st (parentOf t n)).1.isLocal) = false)
    (ha : isAnonymousContainerOfSymbols (kindOf t n) = false)
    (hi : kindOf t n ≠ SyntaxKind.importSpecifier)
    (desc : Descriptor) (hd : descriptor t n = some desc) :
    lsifSymbol t st n =
      cached n (LsifSymbol.global (lsifSymbol t st (parentOf t n)).1 desc)
        (lsifSymbol t st (parentOf t n)).2 := by
  have hn : 0 < n := ne_zero_of_kind_ne_sourceFile t n ho.2.1
  have hp := parentOf_lt t n hn
  have := F_descriptor_some t n st n hc ho
    (by rwa [F_at_eq_lsifSymbol t st n (parentOf t n) hp]) ha hi desc hd
  rwa [F_at_eq_lsifSymbol t st n (parentOf t n) hp] at this

theorem lsifSymbol_descriptor_none (t : Tree) (st : IndexState) (n : Nat)
    (hc : fromCache st n = none) (ho : ownerStage t n)
    (hbad : ((lsifSymbol t st (parentOf t n)).1.isEmpty
      || (lsifSymbol t st (parentOf t n)).1.isLocal) = false)
    (ha : isAnonymousContainerOfSymbols (kindOf t n) = false)
    (hi : kindOf t n ≠ SyntaxKind.importSpecifier)
    (hd : descriptor t n = none) :
    lsifSymbol t st n = newLocalSymbol n (lsifSymbol t st (parentOf t n)).2 := by
  have hn : 0 < n := ne_zero_of_kind_ne_sourceFile t n ho.2.1
  have hp := parentOf_lt t n hn
  have := F_descriptor_none t n st n hc ho
    (by rwa [F_at_eq_lsifSymbol t st n (parentOf t n) hp]) ha hi hd
  rwa [F_at_eq_lsifSymbol t st n (parentOf t n) hp] at this

/-! ## Cache monotonicity

`lsifSymbol` only ever adds cache entries: existing entries survive every
resolution (`Preserves`), and no key above the resolved node is touched
(`UntouchedAbove`; recursion only descends to arena-older nodes). -/

/-- Existing cache entries survive: both tables keep their `some` bindings,
and so does the combined lookup. -/
def Preserves (st st2 : IndexState) : Prop :=
  (∀ k w, st.globalT k = some w → st2.globalT k = some w) ∧
  (∀ k w, st.localT k = some w → st2.localT k = some w) ∧
  (∀ k w, fromCache st k = some w → fromCache st2 k = some w)

theorem preserves_self (st : IndexState) : Preserves st st :=
  ⟨fun _ _ h => h, fun _ _ h => h, fun _ _ h => h⟩

theorem preserves_trans {st1 st2 st3 : IndexState}
    (h1 : Preserves st1 st2) (h2 : Preserves st2 st3) : Preserves st1 st3 :=
  ⟨fun k w h => h2.1 k w (h1.1 k w h),
   fun k w h => h2.2.1 k w (h1.2.1 k w h),
   fun k w h => h2.2.2 k w (h1.2.2 k w h)⟩

/-- No table entry at a key above `n` changes. -/
def UntouchedAbove (n : Nat) (st st2 : IndexState) : Prop :=
  ∀ k, n < k → st2.globalT k = st.globalT k ∧ st2.localT k = st.localT k

theorem untouchedAbove_self (n : Nat) (st : IndexState) : UntouchedAbove n st st :=
  fun _ _ => ⟨rfl, rfl⟩

theorem fromCache_of_globalT {st : IndexState} {n : Nat} {v : LsifSymbol}
    (h : st.globalT n = some v) : fromCache st n = some v := by
  unfold fromCache
  rw [h]

theorem fromCache_of_localT {st : IndexState} {n : Nat} {v : LsifSymbol}
    (hg : st.globalT n = none) (hl : st.localT n = some v) :
    fromCache st n = some v := by
  unfold fromCache
  rw [hg, hl]

theorem fromCache_congr {st st2 : IndexState} {n : Nat}
    (hg : st2.globalT n = st.globalT n) (hl : st2.localT n = st.localT n) :
    fromCache st2 n = fromCache st n := by
  unfold fromCache
  rw [hg, hl]

/-- `cached` at a key absent from the combined lookup preserves entries and
touches nothing else. -/
theorem preserves_cached (st : IndexState) (n : Nat) (v : LsifSymbol)
    (hc : fromCache st n = none) :
    Preserves st (cached n v st).2 ∧ UntouchedAbove n st (cached n v st).2 := by
  have hGL := (fromCache_eq_none_iff st n).1 hc
  refine ⟨⟨?_, ?_, ?_⟩, ?_⟩
  · intro k w h
    have hk : k ≠ n := by
      intro he
      rw [he, hGL.1] at h
      cases h
    show updT st.globalT n v k = some w
    rw [updT_ne _ _ _ _ hk]
    exact h
  · intro k w h
    exact h
  · intro k w h
    have hk : k ≠ n := by
      intro he
      rw [he, hc] at h
      cases h
    have : fromCache (cached n v st).2 k = fromCache st k :=
      fromCache_congr (updT_ne _ _ _ _ hk) rfl
    rw [this]
    exact h
  · intro k hk
    refine ⟨updT_ne _ _ _ _ (by omega), rfl⟩

/-- `newLocalSymbol` at a key absent from the combined lookup preserves
entries and touches nothing else. -/
theorem preserves_newLocal (st : IndexState) (n : Nat)
    (hc : fromCache st n = none) :
    Preserves st (newLocalSymbol n st).2 ∧
      UntouchedAbove n st (newLocalSymbol n st).2 := by
  have hGL := (fromCache_eq_none_iff st n).1 hc
  refine ⟨⟨?_, ?_, ?_⟩, ?_⟩
  · intro k w h
    exact h
  · intro k w h
    have hk : k ≠ n := by
      intro he
      rw [he, hGL.2] at h
      cases h
    show updT st.localT n _ k = some w
    rw [updT_ne _ _ _ _ hk]
    exact h
  · intro k w h
    have hk : k ≠ n := by
      intro he
      rw [he, hc] at h
      cases h
    have : fromCache (newLocalSymbol n st).2 k = fromCache st k :=
      fromCache_congr rfl (updT_ne _ _ _ _ hk)
    rw [this]
    exact h
  · intro k hk
    refine ⟨rfl, updT_ne _ _ _ _ (by omega)⟩

theorem preserves_tables_eq {st st2 : IndexState}
    (hg : st2.globalT = st.globalT) (hl : st2.localT = st.localT) :
    Preserves st st2 :=
  ⟨fun k w h => by rw [hg]; exact h,
   fun k w h => by rw [hl]; exact h,
   fun k w h => by rw [fromCache_congr (congrFun hg k) (congrFun hl k)]; exact h⟩

theorem untouched_tables_eq {st st2 : IndexState} (n : Nat)
    (hg : st2.globalT = st.globalT) (hl : st2.localT = st.localT) :
    UntouchedAbove n st st2 :=
  fun k _ => ⟨congrFun hg k, congrFun hl k⟩

theorem untouched_weaken {st st2 : IndexState} {a b : Nat} (hab : a ≤ b)
    (h : UntouchedAbove a st st2) : UntouchedAbove b st st2 :=
  fun k hk => h k (by omega)

theorem mono_compose {st stMid stFin : IndexState} {n pbound : Nat}
    (h1 : Preserves st stMid) (hu1 : UntouchedAbove pbound st stMid)
    (hpb : pbound < n)
    (h2 : Preserves stMid stFin) (hu2 : UntouchedAbove n stMid stFin) :
    Preserves st stFin ∧ UntouchedAbove n st stFin :=
  ⟨preserves_trans h1 h2,
   fun k hk => ⟨((hu2 k hk).1).trans ((hu1 k (by omega)).1),
                ((hu2 k hk).2).trans ((hu1 k (by omega)).2)⟩⟩


theorem untouched_trans {st st2 st3 : IndexState} {a : Nat}
    (h1 : UntouchedAbove a st st2) (h2 : UntouchedAbove a st2 st3) :
    UntouchedAbove a st st3 :=
  fun k hk => ⟨((h2 k hk).1).trans ((h1 k hk).1), ((h2 k hk).2).trans ((h1 k hk).2)⟩

/-- Resolution only adds cache entries (never removes or overwrites one) and
never writes at a key above the resolved node. -/
theorem lsifSymbol_state_mono (t : Tree) :
    ∀ n st, Preserves st (lsifSymbol t st n).2 ∧
      UntouchedAbove n st (lsifSymbol t st n).2 := by
  intro n
  induction n using Nat.strong_induction_on with
  | _ n ih =>
    intro st
    cases hcc : fromCache st n with
    | some s =>
      rw [lsifSymbol_cache_hit t st n s hcc]
      exact ⟨preserves_self st, untouchedAbove_self n st⟩
    | none =>
      by_cases hb : kindOf t n = SyntaxKind.block
      · rw [lsifSymbol_block t st n hcc hb]
        exact ⟨preserves_self st, untouchedAbove_self n st⟩
      · by_cases hsf : kindOf t n = SyntaxKind.sourceFile
        · rw [lsifSymbol_sourceFile t st n hcc hsf]
          cases t.packageSymbol with
          | none => exact preserves_cached st n LsifSymbol.empty hcc
          | some pkg => exact preserves_cached st n pkg hcc
        · have hn : 0 < n := ne_zero_of_kind_ne_sourceFile t n hsf
          by_cases hpa : kindOf t n = SyntaxKind.propertyAssignment
              ∨ kindOf t n = SyntaxKind.shorthandPropertyAssignment
          · rw [lsifSymbol_propertyAssignment t st n hcc hpa]
            have h1p : Preserves st (ensurePropCounter st (nameOf t n)) :=
              preserves_tables_eq (ensurePropCounter_globalT st (nameOf t n))
                (ensurePropCounter_localT st (nameOf t n))
            have h1u : UntouchedAbove 0 st (ensurePropCounter st (nameOf t n)) :=
              untouched_tables_eq 0 (ensurePropCounter_globalT st (nameOf t n))
                (ensurePropCounter_localT st (nameOf t n))
            have h0 := ih 0 hn (ensurePropCounter st (nameOf t n))
            have h2p : Preserves
                (lsifSymbol t (ensurePropCounter st (nameOf t n)) 0).2
                (bumpPropCounter
                  (lsifSymbol t (ensurePropCounter st (nameOf t n)) 0).2 (nameOf t n)) :=
              preserves_tables_eq (bumpPropCounter_globalT _ _) (bumpPropCounter_localT _ _)
            have h2u : UntouchedAbove 0
                (lsifSymbol t (ensurePropCounter st (nameOf t n)) 0).2
                (bumpPropCounter
                  (lsifSymbol t (ensurePropCounter st (nameOf t n)) 0).2 (nameOf t n)) :=
              untouched_tables_eq 0 (bumpPropCounter_globalT _ _) (bumpPropCounter_localT _ _)
            have hcB : fromCache
                (bumpPropCounter
                  (lsifSymbol t (ensurePropCounter st (nameOf t n)) 0).2 (nameOf t n)) n
                = none := by
              rw [fromCache_congr (congrFun (bumpPropCounter_globalT _ _) n)
                    (congrFun (bumpPropCounter_localT _ _) n),
                  fromCache_congr ((h0.2 n hn).1) ((h0.2 n hn).2),
                  fromCache_congr (congrFun (ensurePropCounter_globalT st (nameOf t n)) n)
                    (congrFun (ensurePropCounter_localT st (nameOf t n)) n)]
              exact hcc
            have h3 := preserves_cached _ n
              (LsifSymbol.global (lsifSymbol t (ensurePropCounter st (nameOf t n)) 0).1
                (metaDescriptor (nameOf t n ++
                  toString (propCounterValue
                    (lsifSymbol t (ensurePropCounter st (nameOf t n)) 0).2 (nameOf t n)))))
              hcB
            exact mono_compose
              (preserves_trans h1p (preserves_trans h0.1 h2p))
              (untouched_trans h1u (untouched_trans h0.2 h2u)) hn h3.1 h3.2
          · have ho : ownerStage t n := ⟨hb, hsf, hpa⟩
            have hP : parentOf t n < n := parentOf_lt t n hn
            have hop := ih (parentOf t n) hP st
            have hcO : fromCache (lsifSymbol t st (parentOf t n)).2 n = none := by
              rw [fromCache_congr ((hop.2 n hP).1) ((hop.2 n hP).2)]
              exact hcc
            by_cases hbad : (((lsifSymbol t st (parentOf t n)).1.isEmpty
                || (lsifSymbol t st (parentOf t n)).1.isLocal) = true)
            · rw [lsifSymbol_owner_local t st n hcc ho hbad]
              have h3 := preserves_newLocal _ n hcO
              exact mono_compose hop.1 hop.2 hP h3.1 h3.2
            · have hbadf : (((lsifSymbol t st (parentOf t n)).1.isEmpty
                  || (lsifSymbol t st (parentOf t n)).1.isLocal) = false) := by
                revert hbad
                cases ((lsifSymbol t st (parentOf t n)).1.isEmpty
                  || (lsifSymbol t st (parentOf t n)).1.isLocal) <;> simp
              by_cases hanon : isAnonymousContainerOfSymbols (kindOf t n) = true
              · rw [lsifSymbol_anonymous t st n hcc ho hbadf hanon]
                have hag := ih (parentOf t n) hP (lsifSymbol t st (parentOf t n)).2
                have hcA : fromCache
                    (lsifSymbol t (lsifSymbol t st (parentOf t n)).2 (parentOf t n)).2 n
                    = none := by
                  rw [fromCache_congr ((hag.2 n hP).1) ((hag.2 n hP).2)]
                  exact hcO
                have h3 := preserves_cached _ n
                  (lsifSymbol t (lsifSymbol t st (parentOf t n)).2 (parentOf t n)).1 hcA
                exact mono_compose hop.1 hop.2 hP
                  (mono_compose hag.1 hag.2 hP h3.1 h3.2).1
                  (mono_compose hag.1 hag.2 hP h3.1 h3.2).2
              · have hanonf : isAnonymousContainerOfSymbols (kindOf t n) = false := by
                  revert hanon
                  cases isAnonymousContainerOfSymbols (kindOf t n) <;> simp
                by_cases hi : kindOf t n = SyntaxKind.importSpecifier
                · cases hT : importTargetsOf t n with
                  | nil =>
                    rw [lsifSymbol_importSpecifier_nil t st n hcc ho hbadf hanonf hi hT]
                    cases hdesc : descriptor t n with
                    | some desc =>
                      simp only [hdesc]
                      have h3 := preserves_cached _ n
                        (LsifSymbol.global (lsifSymbol t st (parentOf t n)).1 desc) hcO
                      exact mono_compose hop.1 hop.2 hP h3.1 h3.2
                    | none =>
                      simp only [hdesc]
                      have h3 := preserves_newLocal _ n hcO
                      exact mono_compose hop.1 hop.2 hP h3.1 h3.2
                  | cons d rest =>
                    have hd : d < n := t.wf_imports n d (by
                      rw [show t.importTargets.getD n [] = d :: rest from hT]
                      exact List.mem_cons_self d rest)
                    rw [lsifSymbol_importSpecifier_cons t st n hcc ho hbadf hanonf hi d rest hT]
                    have hid := ih d hd (lsifSymbol t st (parentOf t n)).2
                    exact mono_compose hop.1 hop.2 hP hid.1
                      (untouched_weaken (by omega) hid.2)
                · cases hdesc : descriptor t n with
                  | some desc =>
                    rw [lsifSymbol_descriptor_some t st n hcc ho hbadf hanonf hi desc hdesc]
                    have h3 := preserves_cached _ n
                      (LsifSymbol.global (lsifSymbol t st (parentOf t n)).1 desc) hcO
                    exact mono_compose hop.1 hop.2 hP h3.1 h3.2
                  | none =>
                    rw [lsifSymbol_descriptor_none t st n hcc ho hbadf hanonf hi hdesc]
                    have h3 := preserves_newLocal _ n hcO
                    exact mono_compose hop.1 hop.2 hP h3.1 h3.2

/-- After resolving a node whose identity is non-empty and that is not
an import specifier with aliased declarations, the node's identity is in the
combined cache (every such branch ends in `cached` or `newLocalSymbol`, or
was a cache hit already). -/
theorem lsifSymbol_caches_self (t : Tree) (st : IndexState) (n : Nat)
    (hv : (lsifSymbol t st n).1.isEmpty = false)
    (hrule : kindOf t n = SyntaxKind.importSpecifier → importTargetsOf t n = []) :
    fromCache (lsifSymbol t st n).2 n = some (lsifSymbol t st n).1 := by
  cases hcc : fromCache st n with
  | some s =>
    rw [lsifSymbol_cache_hit t st n s hcc]
    exact hcc
  | none =>
    have hGL := (fromCache_eq_none_iff st n).1 hcc
    by_cases hb : kindOf t n = SyntaxKind.block
    · rw [lsifSymbol_block t st n hcc hb] at hv
      cases hv
    · by_cases hsf : kindOf t n = SyntaxKind.sourceFile
      · rw [lsifSymbol_sourceFile t st n hcc hsf]
        cases t.packageSymbol with
        | none => exact fromCache_of_globalT (updT_self _ _ _)
        | some pkg => exact fromCache_of_globalT (updT_self _ _ _)
      · have hn : 0 < n := ne_zero_of_kind_ne_sourceFile t n hsf
        by_cases hpa : kindOf t n = SyntaxKind.propertyAssignment
            ∨ kindOf t n = SyntaxKind.shorthandPropertyAssignment
        · rw [lsifSymbol_propertyAssignment t st n hcc hpa]
          exact fromCache_of_globalT (updT_self _ _ _)
        · have ho : ownerStage t n := ⟨hb, hsf, hpa⟩
          have hP : parentOf t n < n := parentOf_lt t n hn
          have hopu := (lsifSymbol_state_mono t (parentOf t n) st).2
          have hgO : (lsifSymbol t st (parentOf t n)).2.globalT n = none := by
            rw [(hopu n hP).1]
            exact hGL.1
          by_cases hbad : (((lsifSymbol t st (parentOf t n)).1.isEmpty
              || (lsifSymbol t st (parentOf t n)).1.isLocal) = true)
          · rw [lsifSymbol_owner_local t st n hcc ho hbad]
            exact fromCache_of_localT hgO (updT_self _ _ _)
          · have hbadf : (((lsifSymbol t st (parentOf t n)).1.isEmpty
                || (lsifSymbol t st (parentOf t n)).1.isLocal) = false) := by
              revert hbad
              cases ((lsifSymbol t st (parentOf t n)).1.isEmpty
                || (lsifSymbol t st (parentOf t n)).1.isLocal) <;> simp
            by_cases hanon : isAnonymousContainerOfSymbols (kindOf t n) = true
            · rw [lsifSymbol_anonymous t st n hcc ho hbadf hanon]
              exact fromCache_of_globalT (updT_self _ _ _)
            · have hanonf : isAnonymousContainerOfSymbols (kindOf t n) = false := by
                revert hanon
                cases isAnonymousContainerOfSymbols (kindOf t n) <;> simp
              by_cases hi : kindOf t n = SyntaxKind.importSpecifier
              · have hT := hrule hi
                rw [lsifSymbol_importSpecifier_nil t st n hcc ho hbadf hanonf hi hT]
                cases hdesc : descriptor t n with
                | some desc =>
                  simp only [hdesc]
                  exact fromCache_of_globalT (updT_self _ _ _)
                | none =>
                  simp only [hdesc]
                  exact fromCache_of_localT hgO (updT_self _ _ _)
              · cases hdesc : descriptor t n with
                | some desc =>
                  rw [lsifSymbol_descriptor_some t st n hcc ho hbadf hanonf hi desc hdesc]
                  exact fromCache_of_globalT (updT_self _ _ _)
                | none =>
                  rw [lsifSymbol_descriptor_none t st n hcc ho hbadf hanonf hi hdesc]
                  exact fromCache_of_localT hgO (updT_self _ _ _)

/-- Resolving a node again from the post-state of its first resolution gives
the same identity and the same state.  The hypothesis reflects the TypeScript
grammar: an import specifier's parent is a named-import list, never
another import specifier. -/
theorem lsifSymbol_stable (t : Tree)
    (hH : ∀ m, kindOf t m = SyntaxKind.importSpecifier →
      kindOf t (parentOf t m) ≠ SyntaxKind.importSpecifier) :
    ∀ n st, lsifSymbol t (lsifSymbol t st n).2 n = lsifSymbol t st n := by
  intro n
  induction n using Nat.strong_induction_on with
  | _ n ih =>
    intro st
    cases hcc : fromCache st n with
    | some s =>
      rw [lsifSymbol_cache_hit t st n s hcc]
      exact lsifSymbol_cache_hit t st n s hcc
    | none =>
      have hGL := (fromCache_eq_none_iff st n).1 hcc
      by_cases hb : kindOf t n = SyntaxKind.block
      · rw [lsifSymbol_block t st n hcc hb]
        exact lsifSymbol_block t st n hcc hb
      · by_cases hsf : kindOf t n = SyntaxKind.sourceFile
        · have hres := lsifSymbol_sourceFile t st n hcc hsf
          cases hpkg : t.packageSymbol with
          | none =>
            rw [hpkg] at hres
            rw [hres]
            exact lsifSymbol_cache_hit t _ n _ (fromCache_of_globalT (updT_self _ _ _))
          | some pkg =>
            rw [hpkg] at hres
            rw [hres]
            exact lsifSymbol_cache_hit t _ n _ (fromCache_of_globalT (updT_self _ _ _))
        · have hn : 0 < n := ne_zero_of_kind_ne_sourceFile t n hsf
          by_cases hpa : kindOf t n = SyntaxKind.propertyAssignment
              ∨ kindOf t n = SyntaxKind.shorthandPropertyAssignment
          · rw [lsifSymbol_propertyAssignment t st n hcc hpa]
            exact lsifSymbol_cache_hit t _ n _ (fromCache_of_globalT (updT_self _ _ _))
          · have ho : ownerStage t n := ⟨hb, hsf, hpa⟩
            have hP : parentOf t n < n := parentOf_lt t n hn
            have hgO : (lsifSymbol t st (parentOf t n)).2.globalT n = none := by
              rw [((lsifSymbol_state_mono t (parentOf t n) st).2 n hP).1]
              exact hGL.1
            by_cases hbad : (((lsifSymbol t st (parentOf t n)).1.isEmpty
                || (lsifSymbol t st (parentOf t n)).1.isLocal) = true)
            · rw [lsifSymbol_owner_local t st n hcc ho hbad]
              exact lsifSymbol_cache_hit t _ n _
                (fromCache_of_localT hgO (updT_self _ _ _))
            · have hbadf : (((lsifSymbol t st (parentOf t n)).1.isEmpty
                  || (lsifSymbol t st (parentOf t n)).1.isLocal) = false) := by
                revert hbad
                cases ((lsifSymbol t st (parentOf t n)).1.isEmpty
                  || (lsifSymbol t st (parentOf t n)).1.isLocal) <;> simp
              by_cases hanon : isAnonymousContainerOfSymbols (kindOf t n) = true
              · rw [lsifSymbol_anonymous t st n hcc ho hbadf hanon]
                exact lsifSymbol_cache_hit t _ n _ (fromCache_of_globalT (updT_self _ _ _))
              · have hanonf : isAnonymousContainerOfSymbols (kindOf t n) = false := by
                  revert hanon
                  cases isAnonymousContainerOfSymbols (kindOf t n) <;> simp
                by_cases hi : kindOf t n = SyntaxKind.importSpecifier
                · cases hT : importTargetsOf t n with
                  | nil =>
                    rw [lsifSymbol_importSpecifier_nil t st n hcc ho hbadf hanonf hi hT]
                    cases hdesc : descriptor t n with
                    | some desc =>
                      simp only [hdesc]
                      exact lsifSymbol_cache_hit t _ n _
                        (fromCache_of_globalT (updT_self _ _ _))
                    | none =>
                      simp only [hdesc]
                      exact lsifSymbol_cache_hit t _ n _
                        (fromCache_of_localT hgO (updT_self _ _ _))
                  | cons d rest =>
                    have hd : d < n := t.wf_imports n d (by
                      rw [show t.importTargets.getD n [] = d :: rest from hT]
                      exact List.mem_cons_self d rest)
                    rw [lsifSymbol_importSpecifier_cons t st n hcc ho hbadf hanonf hi d rest hT]
                    have e1 := (lsifSymbol_state_mono t (parentOf t n) st).2 n hP
                    have e2 := (lsifSymbol_state_mono t d
                      (lsifSymbol t st (parentOf t n)).2).2 n (by omega)
                    have hcc2 : fromCache
                        (lsifSymbol t (lsifSymbol t st (parentOf t n)).2 d).2 n = none := by
                      rw [fromCache_congr e2.1 e2.2, fromCache_congr e1.1 e1.2]
                      exact hcc
                    have hv : (lsifSymbol t st (parentOf t n)).1.isEmpty = false := by
                      revert hbadf
                      cases (lsifSymbol t st (parentOf t n)).1.isEmpty <;> simp
                    have hruleP : kindOf t (parentOf t n) = SyntaxKind.importSpecifier →
                        importTargetsOf t (parentOf t n) = [] :=
                      fun hk => absurd hk (hH n hi)
                    have hOcached := lsifSymbol_caches_self t st (parentOf t n) hv hruleP
                    have hpar2 : fromCache
                        (lsifSymbol t (lsifSymbol t st (parentOf t n)).2 d).2
                        (parentOf t n) = some (lsifSymbol t st (parentOf t n)).1 :=
                      ((lsifSymbol_state_mono t d (lsifSymbol t st (parentOf t n)).2).1).2.2
                        _ _ hOcached
                    have howner2 : lsifSymbol t
                        (lsifSymbol t (lsifSymbol t st (parentOf t n)).2 d).2
                        (parentOf t n)
                        = ((lsifSymbol t st (parentOf t n)).1,
                           (lsifSymbol t (lsifSymbol t st (parentOf t n)).2 d).2) :=
                      lsifSymbol_cache_hit t _ _ _ hpar2
                    have hbadf2 : (((lsifSymbol t
                        (lsifSymbol t (lsifSymbol t st (parentOf t n)).2 d).2
                        (parentOf t n)).1.isEmpty
                        || (lsifSymbol t
                          (lsifSymbol t (lsifSymbol t st (parentOf t n)).2 d).2
                          (parentOf t n)).1.isLocal) = false) := by
                      rw [howner2]
                      exact hbadf
                    rw [lsifSymbol_importSpecifier_cons t _ n hcc2 ho hbadf2 hanonf hi d rest hT,
                        howner2]
                    exact ih d hd (lsifSymbol t st (parentOf t n)).2
                · cases hdesc : descriptor t n with
                  | some desc =>
                    rw [lsifSymbol_descriptor_some t st n hcc ho hbadf hanonf hi desc hdesc]
                    exact lsifSymbol_cache_hit t _ n _ (fromCache_of_globalT (updT_self _ _ _))
                  | none =>
                    rw [lsifSymbol_descriptor_none t st n hcc ho hbadf hanonf hi hdesc]
                    exact lsifSymbol_cache_hit t _ n _
                      (fromCache_of_localT hgO (updT_self _ _ _))

theorem kind_in_range (t : Tree) (m : Nat)
    (h : kindOf t m ≠ SyntaxKind.other) : m < t.kinds.length := by
  by_contra hlen
  apply h
  unfold kindOf
  exact List.getD_eq_default _ _ (Nat.le_of_not_lt hlen)

/-- Claim C7 — *Determinism / cache idempotence*: resolving the same
declaration node twice within one run returns identical `SymbolIdentity`
values (and the second resolution does not change the state); once a node has
an entry in either table the same identity is returned on every subsequent
resolution.  The hypothesis is the TypeScript-grammar fact that an import
specifier's parent is a named-import list, never another import specifier. -/
theorem claim_C7_idempotent (t : Tree) (st : IndexState) (n : Nat)
    (hH : ∀ m, m < t.kinds.length → kindOf t m = SyntaxKind.importSpecifier →
      kindOf t (parentOf t m) ≠ SyntaxKind.importSpecifier) :
    (lsifSymbol t (lsifSymbol t st n).2 n).1 = (lsifSymbol t st n).1 ∧
      (lsifSymbol t (lsifSymbol t st n).2 n).2 = (lsifSymbol t st n).2 := by
  have hH2 : ∀ m, kindOf t m = SyntaxKind.importSpecifier →
      kindOf t (parentOf t m) ≠ SyntaxKind.importSpecifier := by
    intro m hm
    refine hH m (kind_in_range t m ?_) hm
    rw [hm]
    intro hx
    cases hx
  have := lsifSymbol_stable t hH2 n st
  exact ⟨by rw [this], by rw [this]⟩

/-! ## Concrete single-file trees used as witnesses and counterexamples -/

/-- The package symbol handed back by the external package resolver in the
concrete examples: one `Package` descriptor `pkg`, rendered `pkg/`. -/
def pkgSym : LsifSymbol := LsifSymbol.global LsifSymbol.empty (packageDescriptor "pkg")

/-- `class C { }` — node 2 is the class-name identifier. -/
def classTree : Tree where
  kinds := [SyntaxKind.sourceFile, SyntaxKind.classDeclaration, SyntaxKind.identifier]
  names := ["", "C", "C"]
  nameChildren := [none, some 2, none]
  parents := [0, 0, 1]
  importTargets := [[], [], []]
  shorthandTargets := [none, none, none]
  ranges := [[], [], [0, 6, 7]]
  typeStrings := ["", "", "typeof C"]
  docStrings := ["", "", ""]
  packageSymbol := some pkgSym
  wf_root := rfl
  wf_parent := wf_parent_of_bounded _ (by decide)
  wf_imports := wf_imports_of_bounded _ (by decide)

/-- `const a = 1; const b = { a }` — node 11 is the shorthand identifier `a`
inside the object literal, node 10 the shorthand property assignment, node 3
the outer `const a` declaration. -/
def shorthandTree : Tree where
  kinds := [SyntaxKind.sourceFile,
    SyntaxKind.variableStatement, SyntaxKind.variableDeclarationList,
    SyntaxKind.variableDeclaration, SyntaxKind.identifier,
    SyntaxKind.variableStatement, SyntaxKind.variableDeclarationList,
    SyntaxKind.variableDeclaration, SyntaxKind.identifier,
    SyntaxKind.other, SyntaxKind.shorthandPropertyAssignment, SyntaxKind.identifier]
  names := ["", "", "", "a", "a", "", "", "b", "b", "", "a", "a"]
  nameChildren := [none, none, none, some 4, none, none, none, some 8, none, none,
    some 11, none]
  parents := [0, 0, 1, 2, 3, 0, 5, 6, 7, 7, 9, 10]
  importTargets := [[], [], [], [], [], [], [], [], [], [], [], []]
  shorthandTargets := [none, none, none, none, none, none, none, none, none, none,
    some [3], none]
  ranges := [[], [], [], [], [0, 6, 7], [], [], [], [1, 6, 7], [], [], [1, 11, 12]]
  typeStrings := ["", "", "", "number", "number", "", "", "", "", "", "number", "number"]
  docStrings := ["", "", "", "", "", "", "", "", "", "", "", ""]
  packageSymbol := some pkgSym
  wf_root := rfl
  wf_parent := wf_parent_of_bounded _ (by decide)
  wf_imports := wf_imports_of_bounded _ (by decide)

/-- `class C { constructor() { } }` — node 3 is the constructor declaration. -/
def ctorTree : Tree where
  kinds := [SyntaxKind.sourceFile, SyntaxKind.classDeclaration, SyntaxKind.identifier,
    SyntaxKind.constructorDeclaration]
  names := ["", "C", "C", ""]
  nameChildren := [none, some 2, none, none]
  parents := [0, 0, 1, 1]
  importTargets := [[], [], [], []]
  shorthandTargets := [none, none, none, none]
  ranges := [[], [], [0, 6, 7], []]
  typeStrings := ["", "", "typeof C", ""]
  docStrings := ["", "", "", ""]
  packageSymbol := some pkgSym
  wf_root := rfl
  wf_parent := wf_parent_of_bounded _ (by decide)
  wf_imports := wf_imports_of_bounded _ (by decide)

/-- `function f() { { const x = 1 } }` — node 3 is the function body block,
node 4 the inner lexical block, node 7 the `const x` declaration. -/
def blockTree : Tree where
  kinds := [SyntaxKind.sourceFile, SyntaxKind.functionDeclaration, SyntaxKind.identifier,
    SyntaxKind.block, SyntaxKind.block, SyntaxKind.variableStatement,
    SyntaxKind.variableDeclarationList, SyntaxKind.variableDeclaration,
    SyntaxKind.identifier]
  names := ["", "f", "f", "", "", "", "", "x", "x"]
  nameChildren := [none, some 2, none, none, none, none, none, some 8, none]
  parents := [0, 0, 1, 1, 3, 4, 5, 6, 7]
  importTargets := [[], [], [], [], [], [], [], [], []]
  shorthandTargets := [none, none, none, none, none, none, none, none, none]
  ranges := [[], [], [0, 9, 10], [], [], [], [], [], [2, 10, 11]]
  typeStrings := ["", "", "", "", "", "", "", "number", "number"]
  docStrings := ["", "", "", "", "", "", "", "", ""]
  packageSymbol := some pkgSym
  wf_root := rfl
  wf_parent := wf_parent_of_bounded _ (by decide)
  wf_imports := wf_imports_of_bounded _ (by decide)

/-- `var x` with an inverted identifier range `[0, 5, 2]` (end column before
start column) — node 2 is the identifier. -/
def rangeTree : Tree where
  kinds := [SyntaxKind.sourceFile, SyntaxKind.variableDeclaration, SyntaxKind.identifier]
  names := ["", "x", "x"]
  nameChildren := [none, some 2, none]
  parents := [0, 0, 1]
  importTargets := [[], [], []]
  shorthandTargets := [none, none, none]
  ranges := [[], [], [0, 5, 2]]
  typeStrings := ["", "", "number"]
  docStrings := ["", "", ""]
  packageSymbol := some pkgSym
  wf_root := rfl
  wf_parent := wf_parent_of_bounded _ (by decide)
  wf_imports := wf_imports_of_bounded _ (by decide)

/-- `const b = { a: 1 }` in a file with no enclosing package — node 2 is the
property assignment `a: 1` inside the object literal. -/
def propTree : Tree where
  kinds := [SyntaxKind.sourceFile, SyntaxKind.other, SyntaxKind.propertyAssignment,
    SyntaxKind.identifier]
  names := ["", "", "a", "a"]
  nameChildren := [none, none, some 3, none]
  parents := [0, 0, 1, 2]
  importTargets := [[], [], [], []]
  shorthandTargets := [none, none, none, none]
  ranges := [[], [], [], [0, 12, 13]]
  typeStrings := ["", "", "number", "number"]
  docStrings := ["", "", "", ""]
  packageSymbol := none
  wf_root := rfl
  wf_parent := wf_parent_of_bounded _ (by decide)
  wf_imports := wf_imports_of_bounded _ (by decide)

/-- `class A { }; import { A } from './other'` — node 6 is an import
specifier whose aliased declaration list points at the class declaration. -/
def importTree : Tree where
  kinds := [SyntaxKind.sourceFile, SyntaxKind.classDeclaration, SyntaxKind.identifier,
    SyntaxKind.importDeclaration, SyntaxKind.importClause, SyntaxKind.namedImports,
    SyntaxKind.importSpecifier, SyntaxKind.identifier]
  names := ["", "A", "A", "", "", "", "A", "A"]
  nameChildren := [none, some 2, none, none, none, none, some 7, none]
  parents := [0, 0, 1, 0, 3, 4, 5, 6]
  importTargets := [[], [], [], [], [], [], [1], []]
  shorthandTargets := [none, none, none, none, none, none, none, none]
  ranges := [[], [], [0, 6, 7], [], [], [], [], [1, 9, 10]]
  typeStrings := ["", "", "typeof A", "", "", "", "typeof A", "typeof A"]
  docStrings := ["", "", "", "", "", "", "", ""]
  packageSymbol := some pkgSym
  wf_root := rfl
  wf_parent := wf_parent_of_bounded _ (by decide)
  wf_imports := wf_imports_of_bounded _ (by decide)

/-- `interface I { }; interface I { }` — two distinct merged interface
declarations (nodes 1 and 3) of the same name in one file. -/
def mergedTree : Tree where
  kinds := [SyntaxKind.sourceFile, SyntaxKind.interfaceDeclaration, SyntaxKind.identifier,
    SyntaxKind.interfaceDeclaration, SyntaxKind.identifier]
  names := ["", "I", "I", "I", "I"]
  nameChildren := [none, some 2, none, some 4, none]
  parents := [0, 0, 1, 0, 3]
  importTargets := [[], [], [], [], []]
  shorthandTargets := [none, none, none, none, none]
  ranges := [[], [], [0, 10, 11], [], [1, 10, 11]]
  typeStrings := ["", "", "I", "", "I"]
  docStrings := ["", "", "", "", ""]
  packageSymbol := some pkgSym
  wf_root := rfl
  wf_parent := wf_parent_of_bounded _ (by decide)
  wf_imports := wf_imports_of_bounded _ (by decide)

/-- Witness for claim C7: resolving the import specifier of `importTree`
twice in a row returns the identical identity and leaves the state
unchanged. -/
theorem claim_C7_idempotent_witness :
    (lsifSymbol importTree (lsifSymbol importTree initialState 6).2 6).1
        = (lsifSymbol importTree initialState 6).1 ∧
      (lsifSymbol importTree (lsifSymbol importTree initialState 6).2 6).2
        = (lsifSymbol importTree initialState 6).2 :=
  claim_C7_idempotent importTree initialState 6 (by decide)

/-! ## Claims about the occurrence emitter -/

/-- The is-definition dispatch table (`declarationName`) has no case for
class-like declarations, so a class name's parent yields no declared-name
child. -/
theorem declarationName_class (t : Tree) (n : Nat)
    (hk : kindOf t n = SyntaxKind.classDeclaration
      ∨ kindOf t n = SyntaxKind.classExpression) :
    declarationName t n = none := by
  rcases hk with h | h <;> simp [declarationName, h]

theorem visitIdentifierLoop_roles_zero (t : Tree) (idn : Nat) (range : List Nat) :
    ∀ decls st doc o,
      o ∈ (visitIdentifierLoop t idn range 0 false decls st doc).2.occurrences →
        o ∈ doc.occurrences ∨ o.symbol_roles = 0 := by
  intro decls
  induction decls with
  | nil =>
    intro st doc o ho
    exact Or.inl ho
  | cons d rest ih =>
    intro st doc o ho
    rw [visitIdentifierLoop] at ho
    by_cases he : (lsifSymbol t st d).1.isEmpty = true
    · rw [if_pos he] at ho
      exact ih _ _ o ho
    · rw [if_neg he] at ho
      simp only [Bool.false_eq_true, if_false] at ho
      rcases ih _ _ o ho with hin | hz
      · simp only [List.mem_append, List.mem_singleton] at hin
        rcases hin with hin | rfl
        · exact Or.inl hin
        · exact Or.inr rfl
      · exact Or.inr hz

/-- Claim C1 (amended) — an identifier that is the name child of a class-like
declaration is *not* classified as a definition: the is-definition dispatch
table omits class-like declarations, so every occurrence the emitter pushes
for such an identifier carries no role bits. -/
theorem claim_C1_amended (t : Tree) (st : IndexState) (doc : Document)
    (idn : Nat) (decls : List Nat)
    (hk : kindOf t (parentOf t idn) = SyntaxKind.classDeclaration
      ∨ kindOf t (parentOf t idn) = SyntaxKind.classExpression) :
    ∀ o ∈ (visitIdentifier t st doc idn decls).2.occurrences,
      o ∈ doc.occurrences ∨ o.symbol_roles = 0 := by
  intro o ho
  unfold visitIdentifier at ho
  rw [declarationName_class t _ hk] at ho
  simp only [reduceCtorEq, if_false, decide_False] at ho
  exact visitIdentifierLoop_roles_zero t idn (rangeOf t idn) decls st doc o ho

/-- Claim C1 (counterexample) — for `class C { }`, the class-name identifier
occurrence is emitted with `symbol_roles = 0`: the is-definition role bit is
not set, contradicting the claim. -/
theorem claim_C1_counterexample :
    declarationName classTree (parentOf classTree 2) = none ∧
      (visitIdentifier classTree initialState emptyDocument 2 [1]).2.occurrences
        = [⟨[0, 6, 7], "pkg/C#", 0⟩] :=
  ⟨by decide, by decide⟩

theorem claim_C1_amended_witness :
    (⟨[0, 6, 7], "pkg/C#", 0⟩ : Occurrence)
        ∈ (visitIdentifier classTree initialState emptyDocument 2 [1]).2.occurrences
      ∧ ((⟨[0, 6, 7], "pkg/C#", 0⟩ : Occurrence) ∈ emptyDocument.occurrences
        ∨ (⟨[0, 6, 7], "pkg/C#", 0⟩ : Occurrence).symbol_roles = 0) :=
  ⟨by decide,
   claim_C1_amended classTree initialState emptyDocument 2 [1] (by decide)
     ⟨[0, 6, 7], "pkg/C#", 0⟩ (by decide)⟩

/-- Claim C2 — *Shorthand duality*: for `const a = 1; const b = { a }`,
processing the shorthand identifier `a` emits exactly two occurrences at its
range: a definition of the `Meta`-suffixed property symbol `pkg/a0:` and a
pure reference (no role bits) to the outer `const a` declaration's symbol
`pkg/a.`. -/
theorem claim_C2_shorthand_duality :
    (visitIdentifier shorthandTree initialState emptyDocument 11 [10]).2.occurrences
        = [⟨[1, 11, 12], "pkg/a0:", 1⟩, ⟨[1, 11, 12], "pkg/a.", 0⟩]
      ∧ (lsifSymbol shorthandTree initialState 3).1.value = "pkg/a." :=
  ⟨by decide, by decide⟩

/-- Claim C4 (counterexample) — the constructor symbol of `class C` renders
with the fixed literal backtick-escaped: the full symbol string does *not*
end in the characters `C#<constructor>().`. -/
theorem claim_C4_counterexample :
    ("C#<constructor>().".data.isSuffixOf
        (lsifSymbol ctorTree initialState 3).1.value.data) = false ∧
      (lsifSymbol ctorTree initialState 3).1.value = "pkg/C#`<constructor>`()." :=
  ⟨by decide, by decide⟩

/-- Claim C4 (amended) — a constructor's descriptor is a Method descriptor
whose name is the fixed literal `<constructor>` (never taken from source
text), and because `<` and `>` are outside the simple-identifier class the
full rendered symbol ends with ``C#`<constructor>`().``. -/
theorem claim_C4_amended :
    (∀ (t : Tree) (n : Nat), kindOf t n = SyntaxKind.constructorDeclaration →
        descriptor t n = some (methodDescriptor "<constructor>"))
      ∧ (lsifSymbol ctorTree initialState 3).1
          = LsifSymbol.global (LsifSymbol.global pkgSym (typeDescriptor "C"))
              (methodDescriptor "<constructor>")
      ∧ ("C#`<constructor>`().".data.isSuffixOf
          (lsifSymbol ctorTree initialState 3).1.value.data) = true := by
  refine ⟨?_, by decide, by decide⟩
  intro t n hk
  simp [descriptor, hk]

theorem claim_C4_amended_witness :
    descriptor ctorTree 3 = some (methodDescriptor "<constructor>") :=
  claim_C4_amended.1 ctorTree 3 (by decide)

/-- Claim C5 (counterexample) — for `function f() { { const x = 1 } }` the
variable resolves to the tagged-`Local` identity `local 2`, not to a `Global`
identity extending the function's owner chain. -/
theorem claim_C5_counterexample :
    (lsifSymbol blockTree initialState 7).1 = LsifSymbol.localSymbol 2 ∧
      (lsifSymbol blockTree initialState 7).1.isLocal = true :=
  ⟨by decide, by decide⟩

/-- Claim C5 (amended) — a variable declared inside a plain braced statement
list nested under a function body resolves to a fresh `Local` identity: the
lexical block resolves to `Empty`, and the `Empty`/`Local` owner fallback
then mints fresh locals for the variable statement, the declaration list and
the variable itself (three consecutive local indices). -/
theorem claim_C5_amended (t : Tree) (st : IndexState) (v : Nat)
    (h1 : kindOf t v = SyntaxKind.variableDeclaration)
    (h2 : kindOf t (parentOf t v) = SyntaxKind.variableDeclarationList)
    (h3 : kindOf t (parentOf t (parentOf t v)) = SyntaxKind.variableStatement)
    (h4 : kindOf t (parentOf t (parentOf t (parentOf t v))) = SyntaxKind.block)
    (hc1 : fromCache st v = none)
    (hc2 : fromCache st (parentOf t v) = none)
    (hc3 : fromCache st (parentOf t (parentOf t v)) = none)
    (hc4 : fromCache st (parentOf t (parentOf t (parentOf t v))) = none) :
    (lsifSymbol t st v).1 = LsifSymbol.localSymbol (st.localCounter + 2) := by
  have hB : lsifSymbol t st (parentOf t (parentOf t (parentOf t v)))
      = (LsifSymbol.empty, st) :=
    lsifSymbol_block t st _ hc4 h4
  have hoVS : ownerStage t (parentOf t (parentOf t v)) :=
    ⟨by rw [h3]; decide, by rw [h3]; decide, by rw [h3]; decide⟩
  have eVS : lsifSymbol t st (parentOf t (parentOf t v))
      = newLocalSymbol (parentOf t (parentOf t v)) st := by
    have := lsifSymbol_owner_local t st (parentOf t (parentOf t v)) hc3 hoVS
      (by rw [hB]; rfl)
    rw [hB] at this
    exact this
  have hoDL : ownerStage t (parentOf t v) :=
    ⟨by rw [h2]; decide, by rw [h2]; decide, by rw [h2]; decide⟩
  have eDL : lsifSymbol t st (parentOf t v)
      = newLocalSymbol (parentOf t v) (newLocalSymbol (parentOf t (parentOf t v)) st).2 := by
    have := lsifSymbol_owner_local t st (parentOf t v) hc2 hoDL
      (by rw [eVS]; rfl)
    rw [eVS] at this
    exact this
  have hoV : ownerStage t v :=
    ⟨by rw [h1]; decide, by rw [h1]; decide, by rw [h1]; decide⟩
  have eV : lsifSymbol t st v = newLocalSymbol v
      (newLocalSymbol (parentOf t v)
        (newLocalSymbol (parentOf t (parentOf t v)) st).2).2 := by
    have := lsifSymbol_owner_local t st v hc1 hoV (by rw [eDL]; rfl)
    rw [eDL] at this
    exact this
  rw [eV]
  rfl

theorem claim_C5_amended_witness :
    (lsifSymbol blockTree initialState 7).1
      = LsifSymbol.localSymbol (initialState.localCounter + 2) :=
  claim_C5_amended blockTree initialState 7 (by decide) (by decide) (by decide)
    (by decide) (by decide) (by decide) (by decide) (by decide)

/-- Claim C6 (counterexample) — resolving the lexical block of `blockTree`
returns `Empty` but stores *no* entry for the block in the global cache
table, contradicting the claim's "cached in the global table". -/
theorem claim_C6_counterexample :
    (lsifSymbol blockTree initialState 4).1 = LsifSymbol.empty ∧
      (lsifSymbol blockTree initialState 4).2.globalT 4 = none :=
  ⟨by decide, by decide⟩

/-- Claim C6 (amended) — applied to a lexical block, the resolver returns the
`Empty` identity *without* storing an entry for the node in either cache
table (the block branch returns before any `cached` call). -/
theorem claim_C6_amended (t : Tree) (st : IndexState) (n : Nat)
    (hb : kindOf t n = SyntaxKind.block) (hc : fromCache st n = none) :
    lsifSymbol t st n = (LsifSymbol.empty, st) ∧
      (lsifSymbol t st n).2.globalT n = none ∧
      (lsifSymbol t st n).2.localT n = none := by
  have h := lsifSymbol_block t st n hc hb
  have hGL := (fromCache_eq_none_iff st n).1 hc
  exact ⟨h, by rw [h]; exact hGL.1, by rw [h]; exact hGL.2⟩

theorem claim_C6_amended_witness :
    lsifSymbol blockTree initialState 4 = (LsifSymbol.empty, initialState) ∧
      (lsifSymbol blockTree initialState 4).2.globalT 4 = none ∧
      (lsifSymbol blockTree initialState 4).2.localT 4 = none :=
  claim_C6_amended blockTree initialState 4 (by decide) (by decide)

theorem shorthandLoop_ranges (t : Tree) (range : List Nat) :
    ∀ decls st doc o, o ∈ (shorthandLoop t range decls st doc).2.occurrences →
      o ∈ doc.occurrences ∨ o.range = range := by
  intro decls
  induction decls with
  | nil =>
    intro st doc o ho
    exact Or.inl ho
  | cons d rest ih =>
    intro st doc o ho
    rw [shorthandLoop] at ho
    by_cases he : (lsifSymbol t st d).1.isEmpty = true
    · rw [if_pos he] at ho
      exact ih _ _ o ho
    · rw [if_neg he] at ho
      rcases ih _ _ o ho with hin | hr
      · simp only [List.mem_append, List.mem_singleton] at hin
        rcases hin with hin | rfl
        · exact Or.inl hin
        · exact Or.inr rfl
      · exact Or.inr hr

theorem handleShorthand_ranges (t : Tree) (declaration : Nat) (range : List Nat)
    (st : IndexState) (doc : Document) :
    ∀ o ∈ (handleShorthandPropertyDefinition t declaration range st doc).2.occurrences,
      o ∈ doc.occurrences ∨ o.range = range := by
  intro o ho
  unfold handleShorthandPropertyDefinition at ho
  by_cases hk : kindOf t declaration = SyntaxKind.shorthandPropertyAssignment
  · rw [if_pos hk] at ho
    cases hT : shorthandTargetsOf t declaration with
    | none =>
      rw [hT] at ho
      exact Or.inl ho
    | some decls =>
      rw [hT] at ho
      exact shorthandLoop_ranges t range decls st doc o ho
  · rw [if_neg hk] at ho
    exact Or.inl ho

theorem visitIdentifierLoop_ranges (t : Tree) (idn : Nat) (range : List Nat)
    (role : Nat) (isDefinition : Bool) :
    ∀ decls st doc o,
      o ∈ (visitIdentifierLoop t idn range role isDefinition decls st doc).2.occurrences →
        o ∈ doc.occurrences ∨ o.range = range := by
  intro decls
  induction decls with
  | nil =>
    intro st doc o ho
    exact Or.inl ho
  | cons d rest ih =>
    intro st doc o ho
    rw [visitIdentifierLoop] at ho
    by_cases he : (lsifSymbol t st d).1.isEmpty = true
    · rw [if_pos he] at ho
      exact ih _ _ o ho
    · rw [if_neg he] at ho
      by_cases hdf : isDefinition = true
    
      · rw [if_pos hdf] at ho
        rcases ih _ _ o ho with hin | hr
        · rcases handleShorthand_ranges t d range _ _ o hin with hin2 | hr2
          · simp only [addSymbolInformation, List.mem_append, List.mem_singleton] at hin2
            rcases hin2 with hin2 | rfl
            · exact Or.inl hin2
            · exact Or.inr rfl
          · exact Or.inr hr2
        · exact Or.inr hr
      · rw [if_neg hdf] at ho
        rcases ih _ _ o ho with hin | hr
        · simp only [List.mem_append, List.mem_singleton] at hin
          rcases hin with hin | rfl
          · exact Or.inl hin
          · exact Or.inr rfl
        · exact Or.inr hr

/-- Claim C9 (amended) — the indexer performs no range validation: every
occurrence `visitIdentifier` emits (including ones whose range has its end
before its start) carries the identifier's raw range and is pushed into the
Document; the emitter has no failure outcome.  The malformed-range
(`negative length occurrence`) error lives in the snapshot formatter, outside
the indexing path. -/
theorem claim_C9_amended (t : Tree) (st : IndexState) (doc : Document)
    (idn : Nat) (decls : List Nat) :
    ∀ o ∈ (visitIdentifier t st doc idn decls).2.occurrences,
      o ∈ doc.occurrences ∨ o.range = rangeOf t idn := by
  intro o ho
  unfold visitIdentifier at ho
  exact visitIdentifierLoop_ranges t idn (rangeOf t idn) _ _ decls st doc o ho

/-- Claim C9 (counterexample) — an occurrence whose range `[0, 5, 2]` has end
column before start column is emitted into the Document (with no error),
contradicting the claim that the indexer raises the malformed-range error
instead of emitting. -/
theorem claim_C9_counterexample :
    (visitIdentifier rangeTree initialState emptyDocument 2 [1]).2.occurrences
      = [⟨[0, 5, 2], "pkg/x.", 1⟩] := by
  decide

theorem claim_C9_amended_witness :
    (⟨[0, 5, 2], "pkg/x.", 1⟩ : Occurrence)
        ∈ (visitIdentifier rangeTree initialState emptyDocument 2 [1]).2.occurrences
      ∧ ((⟨[0, 5, 2], "pkg/x.", 1⟩ : Occurrence) ∈ emptyDocument.occurrences
        ∨ (⟨[0, 5, 2], "pkg/x.", 1⟩ : Occurrence).range = rangeOf rangeTree 2) :=
  ⟨by decide,
   claim_C9_amended rangeTree initialState emptyDocument 2 [1]
     ⟨[0, 5, 2], "pkg/x.", 1⟩ (by decide)⟩

/-! ## Claim C10: property assignments are owned by the file symbol -/

theorem fromCache_ensure (st : IndexState) (s : String) (n : Nat) :
    fromCache (ensurePropCounter st s) n = fromCache st n :=
  fromCache_congr (congrFun (ensurePropCounter_globalT st s) n)
    (congrFun (ensurePropCounter_localT st s) n)

/-- The file-root resolution's identity only depends on the tables at key 0
(and the package resolver's answer). -/
theorem lsifSymbol_zero_fst (t : Tree) (st1 st2 : IndexState)
    (hg : st1.globalT 0 = st2.globalT 0) (hl : st1.localT 0 = st2.localT 0) :
    (lsifSymbol t st1 0).1 = (lsifSymbol t st2 0).1 := by
  have hk := kindOf_zero t
  cases hc : fromCache st2 0 with
  | some s =>
    have hc1 : fromCache st1 0 = some s := by
      rw [fromCache_congr hg hl]
      exact hc
    rw [lsifSymbol_cache_hit t st1 0 s hc1, lsifSymbol_cache_hit t st2 0 s hc]
  | none =>
    have hc1 : fromCache st1 0 = none := by
      rw [fromCache_congr hg hl]
      exact hc
    rw [lsifSymbol_sourceFile t st1 0 hc1 hk, lsifSymbol_sourceFile t st2 0 hc hk]
    cases t.packageSymbol <;> rfl

/-- Resolving the file root never touches the property counters. -/
theorem lsifSymbol_zero_propCounters (t : Tree) (st : IndexState) :
    (lsifSymbol t st 0).2.propCounters = st.propCounters := by
  cases hc : fromCache st 0 with
  | some s => rw [lsifSymbol_cache_hit t st 0 s hc]
  | none =>
    rw [lsifSymbol_sourceFile t st 0 hc (kindOf_zero t)]
    cases t.packageSymbol <;> rfl

theorem propCounterValue_ensure (st : IndexState) (s : String) :
    propCounterValue (ensurePropCounter st s) s = propCounterValue st s := by
  unfold propCounterValue ensurePropCounter
  cases h : st.propCounters s <;> simp [h]

/-- Claim C10 — an object-literal property assignment (either form) that is
not yet cached resolves, before the `Empty`/`Local` owner fallback is ever
consulted, to a `Global` identity whose owner is the enclosing source file's
symbol (whatever it is — in a package-less file it is `Empty`) and whose
descriptor is the `Meta` descriptor of the property name suffixed with the
per-file, per-name counter value. -/
theorem claim_C10_property_owner (t : Tree) (st : IndexState) (n : Nat)
    (hpa : kindOf t n = SyntaxKind.propertyAssignment
      ∨ kindOf t n = SyntaxKind.shorthandPropertyAssignment)
    (hc : fromCache st n = none) :
    (lsifSymbol t st n).1 =
      LsifSymbol.global (lsifSymbol t st 0).1
        (metaDescriptor (nameOf t n ++ toString (propCounterValue st (nameOf t n)))) := by
  rw [lsifSymbol_propertyAssignment t st n hc hpa]
  have hfst : (lsifSymbol t (ensurePropCounter st (nameOf t n)) 0).1
      = (lsifSymbol t st 0).1 :=
    lsifSymbol_zero_fst t (ensurePropCounter st (nameOf t n)) st
      (congrFun (ensurePropCounter_globalT st (nameOf t n)) 0)
      (congrFun (ensurePropCounter_localT st (nameOf t n)) 0)
  have hcnt : propCounterValue
      (lsifSymbol t (ensurePropCounter st (nameOf t n)) 0).2 (nameOf t n)
      = propCounterValue st (nameOf t n) := by
    unfold propCounterValue
    rw [lsifSymbol_zero_propCounters]
    exact propCounterValue_ensure st (nameOf t n)
  show LsifSymbol.global (lsifSymbol t (ensurePropCounter st (nameOf t n)) 0).1
      (metaDescriptor (nameOf t n ++
        toString (propCounterValue
          (lsifSymbol t (ensurePropCounter st (nameOf t n)) 0).2 (nameOf t n)))) = _
  rw [hfst, hcnt]

/-- Witness for claim C10: in the package-less `propTree`, the property
assignment still receives a `Global` identity with a `Meta` descriptor rather
than a fresh `Local` identity (its owner is the file's `Empty` symbol). -/
theorem claim_C10_property_owner_witness :
    (lsifSymbol propTree initialState 2).1 =
        LsifSymbol.global (lsifSymbol propTree initialState 0).1
          (metaDescriptor (nameOf propTree 2
            ++ toString (propCounterValue initialState (nameOf propTree 2))))
      ∧ (lsifSymbol propTree initialState 2).1
          = LsifSymbol.global LsifSymbol.empty (metaDescriptor "a0") :=
  ⟨claim_C10_property_owner propTree initialState 2 (by decide) (by decide),
   by decide⟩

/-! ## Claim C8: uniqueness of rendered global symbol strings

Rendered descriptor strings form a prefix-free code as long as names are
non-empty and disambiguators are empty (which is how `FileIndexer.descriptor`
builds every descriptor — the constructors of `Descriptor.ts` never set a
disambiguator).  Hence two `Global` identities render to the same string only
if they have equal owner chains.  Distinct merged declarations (same chain)
do share one rendered string, which is the counterexample to the claim as
stated. -/

theorem doubleBt_cons_bt (rest : List Char) :
    doubleBt (btChar :: rest) = btChar :: btChar :: doubleBt rest := by
  rw [doubleBt, if_pos rfl]

theorem doubleBt_cons_ne (c : Char) (rest : List Char) (hc : c ≠ btChar) :
    doubleBt (c :: rest) = c :: doubleBt rest := by
  rw [doubleBt, if_neg hc]

/-- Reading a maximal run of simple characters is unambiguous. -/
theorem simple_read (a : List Char) :
    ∀ (b x y : List Char), a.all isSimpleChar = true → b.all isSimpleChar = true →
      (∀ c, x.head? = some c → isSimpleChar c = false) →
      (∀ c, y.head? = some c → isSimpleChar c = false) →
      a ++ x = b ++ y → a = b ∧ x = y := by
  induction a with
  | nil =>
    intro b x y _ hb hx _ h
    cases b with
    | nil => exact ⟨rfl, h⟩
    | cons c bs =>
      exfalso
      simp only [List.nil_append] at h
      subst h
      simp only [List.all_cons, Bool.and_eq_true] at hb
      have h1 := hx c rfl
      rw [hb.1] at h1
      cases h1
  | cons c as ih =>
    intro b x y ha hb hx hy h
    cases b with
    | nil =>
      exfalso
      simp only [List.nil_append] at h
      subst h
      simp only [List.all_cons, Bool.and_eq_true] at ha
      have h1 := hy c rfl
      rw [ha.1] at h1
      cases h1
    | cons c2 bs =>
      injection h with h1 h2
      subst h1
      simp only [List.all_cons, Bool.and_eq_true] at ha hb
      obtain ⟨hab, hxy⟩ := ih bs x y ha.2 hb.2 hx hy h2
      exact ⟨by rw [hab], hxy⟩

/-- Reading a backtick-doubled body up to its closing backtick is
unambiguous, provided what follows the closing backtick is not itself a
backtick. -/
theorem esc_read (a : List Char) :
    ∀ (b x y : List Char), x.head? ≠ some btChar → y.head? ≠ some btChar →
      doubleBt a ++ btChar :: x = doubleBt b ++ btChar :: y → a = b ∧ x = y := by
  induction a with
  | nil =>
    intro b x y hx hy h
    cases b with
    | nil =>
      simp only [doubleBt, List.nil_append] at h
      injection h with _ h2
      exact ⟨rfl, h2⟩
    | cons c2 bs =>
      exfalso
      by_cases hc2 : c2 = btChar
      · subst hc2
        rw [doubleBt_cons_bt] at h
        simp only [doubleBt, List.nil_append] at h
        injection h with _ h2
        exact hx (by rw [h2]; rfl)
      · rw [doubleBt_cons_ne c2 bs hc2] at h
        simp only [doubleBt, List.nil_append] at h
        injection h with h1 _
        exact hc2 h1.symm
  | cons c as ih =>
    intro b x y hx hy h
    by_cases hc : c = btChar
    · subst hc
      rw [doubleBt_cons_bt] at h
      cases b with
      | nil =>
        exfalso
        simp only [doubleBt, List.nil_append] at h
        injection h with _ h2
        exact hy (by rw [← h2]; rfl)
      | cons c2 bs =>
        by_cases hc2 : c2 = btChar
        · subst hc2
          rw [doubleBt_cons_bt] at h
          injection h with _ h2
          injection h2 with _ h3
          obtain ⟨hab, hxy⟩ := ih bs x y hx hy h3
          exact ⟨by rw [hab], hxy⟩
        · exfalso
          rw [doubleBt_cons_ne c2 bs hc2] at h
          injection h with h1 _
          exact hc2 h1.symm
    · rw [doubleBt_cons_ne c as hc] at h
      cases b with
      | nil =>
        exfalso
        simp only [doubleBt, List.nil_append] at h
        injection h with h1 _
        exact hc h1
      | cons c2 bs =>
        by_cases hc2 : c2 = btChar
        · exfalso
          subst hc2
          rw [doubleBt_cons_bt] at h
          injection h with h1 _
          exact hc h1
        · rw [doubleBt_cons_ne c2 bs hc2] at h
          injection h with h1 h2
          subst h1
          obtain ⟨hab, hxy⟩ := ih bs x y hx hy h2
          exact ⟨by rw [hab], hxy⟩

/-- A rendered non-empty name starts with a simple character or a backtick. -/
theorem escapedName_head (d : Descriptor) (h0 : d.name ≠ "") :
    ∃ c rest, (escapedName d).data = c :: rest ∧
      (isSimpleChar c = true ∨ c = btChar) := by
  by_cases hs : isSimpleIdentifier d.name
  · have hesc : escapedName d = d.name := by
      unfold escapedName
      rw [if_neg h0, if_pos hs]
    cases hd : d.name.data with
    | nil => exact absurd ((data_eq_nil_iff d.name).1 hd) h0
    | cons c cs =>
      refine ⟨c, cs, by rw [hesc, hd], Or.inl ?_⟩
      have hs2 : d.name.data.all isSimpleChar = true := by
        unfold isSimpleIdentifier at hs
        simp only [Bool.and_eq_true] at hs
        exact hs.2
      rw [hd] at hs2
      simp only [List.all_cons, Bool.and_eq_true] at hs2
      exact hs2.1
  · exact ⟨btChar, doubleBt d.name.data ++ [btChar],
      escapedName_data_of_not_simple d h0 hs, Or.inr rfl⟩

/-- Reading a rendered name followed by a non-name character is unambiguous:
the names agree and the remainders agree. -/
theorem escapedName_read (d e : Descriptor) (hd : d.name ≠ "") (he : e.name ≠ "")
    (x0 : Char) (xs : List Char) (y0 : Char) (ys : List Char)
    (hx : isSimpleChar x0 = false) (hx2 : x0 ≠ btChar)
    (hy : isSimpleChar y0 = false) (hy2 : y0 ≠ btChar)
    (h : (escapedName d).data ++ x0 :: xs = (escapedName e).data ++ y0 :: ys) :
    d.name = e.name ∧ x0 :: xs = y0 :: ys := by
  by_cases hsd : isSimpleIdentifier d.name
  · have hescd : escapedName d = d.name := by
      unfold escapedName
      rw [if_neg hd, if_pos hsd]
    have hda : d.name.data.all isSimpleChar = true := by
      unfold isSimpleIdentifier at hsd
      simp only [Bool.and_eq_true] at hsd
      exact hsd.2
    by_cases hse : isSimpleIdentifier e.name
    · have hesce : escapedName e = e.name := by
        unfold escapedName
        rw [if_neg he, if_pos hse]
      have hea : e.name.data.all isSimpleChar = true := by
        unfold isSimpleIdentifier at hse
        simp only [Bool.and_eq_true] at hse
        exact hse.2
      rw [hescd, hesce] at h
      obtain ⟨hn, hr⟩ := simple_read d.name.data e.name.data (x0 :: xs) (y0 :: ys)
        hda hea
        (by intro c hc; simp only [List.head?_cons, Option.some.injEq] at hc;
            rw [← hc]; exact hx)
        (by intro c hc; simp only [List.head?_cons, Option.some.injEq] at hc;
            rw [← hc]; exact hy)
        h
      refine ⟨?_, hr⟩
      rw [← mk_data d.name, ← mk_data e.name, hn]
    · exfalso
      rw [hescd, escapedName_data_of_not_simple e he hse] at h
      cases hdd : d.name.data with
      | nil => exact absurd ((data_eq_nil_iff d.name).1 hdd) hd
      | cons c cs =>
        rw [hdd] at h hda
        simp only [List.all_cons, Bool.and_eq_true] at hda
        injection h with h1 _
        rw [h1] at hda
        have := hda.1
        rw [show isSimpleChar btChar = false from by decide] at this
        cases this
  · by_cases hse : isSimpleIdentifier e.name
    · exfalso
      have hesce : escapedName e = e.name := by
        unfold escapedName
        rw [if_neg he, if_pos hse]
      have hea : e.name.data.all isSimpleChar = true := by
        unfold isSimpleIdentifier at hse
        simp only [Bool.and_eq_true] at hse
        exact hse.2
      rw [escapedName_data_of_not_simple d hd hsd, hesce] at h
      cases hed : e.name.data with
      | nil => exact absurd ((data_eq_nil_iff e.name).1 hed) he
      | cons c cs =>
        rw [hed] at h hea
        simp only [List.all_cons, Bool.and_eq_true] at hea
        injection h with h1 _
        rw [← h1] at hea
        have := hea.1
        rw [show isSimpleChar btChar = false from by decide] at this
        cases this
    · rw [escapedName_data_of_not_simple d hd hsd,
          escapedName_data_of_not_simple e he hse] at h
      simp only [List.cons_append, List.append_assoc, List.singleton_append] at h
      injection h with _ h2
      obtain ⟨hn, hr⟩ := esc_read d.name.data e.name.data (x0 :: xs) (y0 :: ys)
        (by simp only [List.head?_cons, ne_eq, Option.some.injEq]; exact hx2)
        (by simp only [List.head?_cons, ne_eq, Option.some.injEq]; exact hy2)
        h2
      refine ⟨?_, hr⟩
      rw [← mk_data d.name, ← mk_data e.name, hn]

theorem tokenData_package (nm : String) :
    (descriptorString ⟨nm, Suffix.package, ""⟩).data
      = (escapedName ⟨nm, Suffix.package, ""⟩).data ++ ['/'] := rfl

theorem tokenData_typ (nm : String) :
    (descriptorString ⟨nm, Suffix.typ, ""⟩).data
      = (escapedName ⟨nm, Suffix.typ, ""⟩).data ++ ['#'] := rfl

theorem tokenData_term (nm : String) :
    (descriptorString ⟨nm, Suffix.term, ""⟩).data
      = (escapedName ⟨nm, Suffix.term, ""⟩).data ++ ['.'] := rfl

theorem tokenData_meta (nm : String) :
    (descriptorString ⟨nm, Suffix.meta, ""⟩).data
      = (escapedName ⟨nm, Suffix.meta, ""⟩).data ++ [':'] := rfl

theorem tokenData_method (nm : String) :
    (descriptorString ⟨nm, Suffix.method, ""⟩).data
      = (escapedName ⟨nm, Suffix.method, ""⟩).data ++ ['(', ')', '.'] := by
  show (((escapedName ⟨nm, Suffix.method, ""⟩ ++ "(") ++ "") ++ ")." ).data = _
  rw [data_append, data_append, data_append]
  simp [List.append_assoc]

theorem tokenData_parameter (nm : String) :
    (descriptorString ⟨nm, Suffix.parameter, ""⟩).data
      = '(' :: ((escapedName ⟨nm, Suffix.parameter, ""⟩).data ++ [')']) := rfl

theorem tokenData_typeParameter (nm : String) :
    (descriptorString ⟨nm, Suffix.typeParameter, ""⟩).data
      = '[' :: ((escapedName ⟨nm, Suffix.typeParameter, ""⟩).data ++ [']']) := rfl

/-- Rendered descriptors (non-empty name, empty disambiguator) form a
prefix-free code: if one token followed by anything equals another token
followed by anything, the descriptors and the remainders agree. -/
theorem token_prefix_free (d e : Descriptor)
    (hd : d.name ≠ "" ∧ d.disambiguator = "")
    (he : e.name ≠ "" ∧ e.disambiguator = "")
    (x y : List Char)
    (h : (descriptorString d).data ++ x = (descriptorString e).data ++ y) :
    d = e ∧ x = y := by
  obtain ⟨nm1, sf1, di1⟩ := d
  obtain ⟨nm2, sf2, di2⟩ := e
  obtain ⟨hnm1, hdi1⟩ := hd
  obtain ⟨hnm2, hdi2⟩ := he
  cases hdi1
  cases hdi2
  cases sf1 <;> cases sf2
  · simp only [tokenData_package nm1, tokenData_package nm2, List.append_assoc,
      List.cons_append, List.singleton_append, List.nil_append] at h
    obtain ⟨hn, hr⟩ := escapedName_read ⟨nm1, Suffix.package, ""⟩ ⟨nm2, Suffix.package, ""⟩
      hnm1 hnm2 '/' _ '/' _ (by decide) (by decide) (by decide) (by decide) h
    injection hr with _ hr
    exact ⟨by rw [show nm1 = nm2 from hn], hr⟩
  · simp only [tokenData_package nm1, tokenData_typ nm2, List.append_assoc,
      List.cons_append, List.singleton_append, List.nil_append] at h
    obtain ⟨hn, hr⟩ := escapedName_read ⟨nm1, Suffix.package, ""⟩ ⟨nm2, Suffix.typ, ""⟩
      hnm1 hnm2 '/' _ '#' _ (by decide) (by decide) (by decide) (by decide) h
    injection hr with hr1 _
    exact absurd hr1 (by decide)
  · simp only [tokenData_package nm1, tokenData_term nm2, List.append_assoc,
      List.cons_append, List.singleton_append, List.nil_append] at h
    obtain ⟨hn, hr⟩ := escapedName_read ⟨nm1, Suffix.package, ""⟩ ⟨nm2, Suffix.term, ""⟩
      hnm1 hnm2 '/' _ '.' _ (by decide) (by decide) (by decide) (by decide) h
    injection hr with hr1 _
    exact absurd hr1 (by decide)
  · simp only [tokenData_package nm1, tokenData_meta nm2, List.append_assoc,
      List.cons_append, List.singleton_append, List.nil_append] at h
    obtain ⟨hn, hr⟩ := escapedName_read ⟨nm1, Suffix.package, ""⟩ ⟨nm2, Suffix.meta, ""⟩
      hnm1 hnm2 '/' _ ':' _ (by decide) (by decide) (by decide) (by decide) h
    injection hr with hr1 _
    exact absurd hr1 (by decide)
  · simp only [tokenData_package nm1, tokenData_method nm2, List.append_assoc,
      List.cons_append, List.singleton_append, List.nil_append] at h
    obtain ⟨hn, hr⟩ := escapedName_read ⟨nm1, Suffix.package, ""⟩ ⟨nm2, Suffix.method, ""⟩
      hnm1 hnm2 '/' _ '(' _ (by decide) (by decide) (by decide) (by decide) h
    injection hr with hr1 _
    exact absurd hr1 (by decide)
  · exfalso
    simp only [tokenData_package nm1, tokenData_parameter nm2, List.append_assoc,
      List.cons_append, List.singleton_append, List.nil_append] at h
    obtain ⟨c, rest, hdd, hco⟩ := escapedName_head ⟨nm1, Suffix.package, ""⟩ hnm1
    rw [hdd] at h
    injection h with h1 _
    rcases hco with hco | hco
    · rw [h1] at hco
      exact absurd hco (by decide)
    · rw [hco] at h1
      exact absurd h1 (by decide)
  · exfalso
    simp only [tokenData_package nm1, tokenData_typeParameter nm2, List.append_assoc,
      List.cons_append, List.singleton_append, List.nil_append] at h
    obtain ⟨c, rest, hdd, hco⟩ := escapedName_head ⟨nm1, Suffix.package, ""⟩ hnm1
    rw [hdd] at h
    injection h with h1 _
    rcases hco with hco | hco
    · rw [h1] at hco
      exact absurd hco (by decide)
    · rw [hco] at h1
      exact absurd h1 (by decide)
  · simp only [tokenData_typ nm1, tokenData_package nm2, List.append_assoc,
      List.cons_append, List.singleton_append, List.nil_append] at h
    obtain ⟨hn, hr⟩ := escapedName_read ⟨nm1, Suffix.typ, ""⟩ ⟨nm2, Suffix.package, ""⟩
      hnm1 hnm2 '#' _ '/' _ (by decide) (by decide) (by decide) (by decide) h
    injection hr with hr1 _
    exact absurd hr1 (by decide)
  · simp only [tokenData_typ nm1, tokenData_typ nm2, List.append_assoc,
      List.cons_append, List.singleton_append, List.nil_append] at h
    obtain ⟨hn, hr⟩ := escapedName_read ⟨nm1, Suffix.typ, ""⟩ ⟨nm2, Suffix.typ, ""⟩
      hnm1 hnm2 '#' _ '#' _ (by decide) (by decide) (by decide) (by decide) h
    injection hr with _ hr
    exact ⟨by rw [show nm1 = nm2 from hn], hr⟩
  · simp only [tokenData_typ nm1, tokenData_term nm2, List.append_assoc,
      List.cons_append, List.singleton_append, List.nil_append] at h
    obtain ⟨hn, hr⟩ := escapedName_read ⟨nm1, Suffix.typ, ""⟩ ⟨nm2, Suffix.term, ""⟩
      hnm1 hnm2 '#' _ '.' _ (by decide) (by decide) (by decide) (by decide) h
    injection hr with hr1 _
    exact absurd hr1 (by decide)
  · simp only [tokenData_typ nm1, tokenData_meta nm2, List.append_assoc,
      List.cons_append, List.singleton_append, List.nil_append] at h
    obtain ⟨hn, hr⟩ := escapedName_read ⟨nm1, Suffix.typ, ""⟩ ⟨nm2, Suffix.meta, ""⟩
      hnm1 hnm2 '#' _ ':' _ (by decide) (by decide) (by decide) (by decide) h
    injection hr with hr1 _
    exact absurd hr1 (by decide)
  · simp only [tokenData_typ nm1, tokenData_method nm2, List.append_assoc,
      List.cons_append, List.singleton_append, List.nil_append] at h
    obtain ⟨hn, hr⟩ := escapedName_read ⟨nm1, Suffix.typ, ""⟩ ⟨nm2, Suffix.method, ""⟩
      hnm1 hnm2 '#' _ '(' _ (by decide) (by decide) (by decide) (by decide) h
    injection hr with hr1 _
    exact absurd hr1 (by decide)
  · exfalso
    simp only [tokenData_typ nm1, tokenData_parameter nm2, List.append_assoc,
      List.cons_append, List.singleton_append, List.nil_append] at h
    obtain ⟨c, rest, hdd, hco⟩ := escapedName_head ⟨nm1, Suffix.typ, ""⟩ hnm1
    rw [hdd] at h
    injection h with h1 _
    rcases hco with hco | hco
    · rw [h1] at hco
      exact absurd hco (by decide)
    · rw [hco] at h1
      exact absurd h1 (by decide)
  · exfalso
    simp only [tokenData_typ nm1, tokenData_typeParameter nm2, List.append_assoc,
      List.cons_append, List.singleton_append, List.nil_append] at h
    obtain ⟨c, rest, hdd, hco⟩ := escapedName_head ⟨nm1, Suffix.typ, ""⟩ hnm1
    rw [hdd] at h
    injection h with h1 _
    rcases hco with hco | hco
    · rw [h1] at hco
      exact absurd hco (by decide)
    · rw [hco] at h1
      exact absurd h1 (by decide)
  · simp only [tokenData_term nm1, tokenData_package nm2, List.append_assoc,
      List.cons_append, List.singleton_append, List.nil_append] at h
    obtain ⟨hn, hr⟩ := escapedName_read ⟨nm1, Suffix.term, ""⟩ ⟨nm2, Suffix.package, ""⟩
      hnm1 hnm2 '.' _ '/' _ (by decide) (by decide) (by decide) (by decide) h
    injection hr with hr1 _
    exact absurd hr1 (by decide)
  · simp only [tokenData_term nm1, tokenData_typ nm2, List.append_assoc,
      List.cons_append, List.singleton_append, List.nil_append] at h
    obtain ⟨hn, hr⟩ := escapedName_read ⟨nm1, Suffix.term, ""⟩ ⟨nm2, Suffix.typ, ""⟩
      hnm1 hnm2 '.' _ '#' _ (by decide) (by decide) (by decide) (by decide) h
    injection hr with hr1 _
    exact absurd hr1 (by decide)
  · simp only [tokenData_term nm1, tokenData_term nm2, List.append_assoc,
      List.cons_append, List.singleton_append, List.nil_append] at h
    obtain ⟨hn, hr⟩ := escapedName_read ⟨nm1, Suffix.term, ""⟩ ⟨nm2, Suffix.term, ""⟩
      hnm1 hnm2 '.' _ '.' _ (by decide) (by decide) (by decide) (by decide) h
    injection hr with _ hr
    exact ⟨by rw [show nm1 = nm2 from hn], hr⟩
  · simp only [tokenData_term nm1, tokenData_meta nm2, List.append_assoc,
      List.cons_append, List.singleton_append, List.nil_append] at h
    obtain ⟨hn, hr⟩ := escapedName_read ⟨nm1, Suffix.term, ""⟩ ⟨nm2, Suffix.meta, ""⟩
      hnm1 hnm2 '.' _ ':' _ (by decide) (by decide) (by decide) (by decide) h
    injection hr with hr1 _
    exact absurd hr1 (by decide)
  · simp only [tokenData_term nm1, tokenData_method nm2, List.append_assoc,
      List.cons_append, List.singleton_append, List.nil_append] at h
    obtain ⟨hn, hr⟩ := escapedName_read ⟨nm1, Suffix.term, ""⟩ ⟨nm2, Suffix.method, ""⟩
      hnm1 hnm2 '.' _ '(' _ (by decide) (by decide) (by decide) (by decide) h
    injection hr with hr1 _
    exact absurd hr1 (by decide)
  · exfalso
    simp only [tokenData_term nm1, tokenData_parameter nm2, List.append_assoc,
      List.cons_append, List.singleton_append, List.nil_append] at h
    obtain ⟨c, rest, hdd, hco⟩ := escapedName_head ⟨nm1, Suffix.term, ""⟩ hnm1
    rw [hdd] at h
    injection h with h1 _
    rcases hco with hco | hco
    · rw [h1] at hco
      exact absurd hco (by decide)
    · rw [hco] at h1
      exact absurd h1 (by decide)
  · exfalso
    simp only [tokenData_term nm1, tokenData_typeParameter nm2, List.append_assoc,
      List.cons_append, List.singleton_append, List.nil_append] at h
    obtain ⟨c, rest, hdd, hco⟩ := escapedName_head ⟨nm1, Suffix.term, ""⟩ hnm1
    rw [hdd] at h
    injection h with h1 _
    rcases hco with hco | hco
    · rw [h1] at hco
      exact absurd hco (by decide)
    · rw [hco] at h1
      exact absurd h1 (by decide)
  · simp only [tokenData_meta nm1, tokenData_package nm2, List.append_assoc,
      List.cons_append, List.singleton_append, List.nil_append] at h
    obtain ⟨hn, hr⟩ := escapedName_read ⟨nm1, Suffix.meta, ""⟩ ⟨nm2, Suffix.package, ""⟩
      hnm1 hnm2 ':' _ '/' _ (by decide) (by decide) (by decide) (by decide) h
    injection hr with hr1 _
    exact absurd hr1 (by decide)
  · simp only [tokenData_meta nm1, tokenData_typ nm2, List.append_assoc,
      List.cons_append, List.singleton_append, List.nil_append] at h
    obtain ⟨hn, hr⟩ := escapedName_read ⟨nm1, Suffix.meta, ""⟩ ⟨nm2, Suffix.typ, ""⟩
      hnm1 hnm2 ':' _ '#' _ (by decide) (by decide) (by decide) (by decide) h
    injection hr with hr1 _
    exact absurd hr1 (by decide)
  · simp only [tokenData_meta nm1, tokenData_term nm2, List.append_assoc,
      List.cons_append, List.singleton_append, List.nil_append] at h
    obtain ⟨hn, hr⟩ := escapedName_read ⟨nm1, Suffix.meta, ""⟩ ⟨nm2, Suffix.term, ""⟩
      hnm1 hnm2 ':' _ '.' _ (by decide) (by decide) (by decide) (by decide) h
    injection hr with hr1 _
    exact absurd hr1 (by decide)
  · simp only [tokenData_meta nm1, tokenData_meta nm2, List.append_assoc,
      List.cons_append, List.singleton_append, List.nil_append] at h
    obtain ⟨hn, hr⟩ := escapedName_read ⟨nm1, Suffix.meta, ""⟩ ⟨nm2, Suffix.meta, ""⟩
      hnm1 hnm2 ':' _ ':' _ (by decide) (by decide) (by decide) (by decide) h
    injection hr with _ hr
    exact ⟨by rw [show nm1 = nm2 from hn], hr⟩
  · simp only [tokenData_meta nm1, tokenData_method nm2, List.append_assoc,
      List.cons_append, List.singleton_append, List.nil_append] at h
    obtain ⟨hn, hr⟩ := escapedName_read ⟨nm1, Suffix.meta, ""⟩ ⟨nm2, Suffix.method, ""⟩
      hnm1 hnm2 ':' _ '(' _ (by decide) (by decide) (by decide) (by decide) h
    injection hr with hr1 _
    exact absurd hr1 (by decide)
  · exfalso
    simp only [tokenData_meta nm1, tokenData_parameter nm2, List.append_assoc,
      List.cons_append, List.singleton_append, List.nil_append] at h
    obtain ⟨c, rest, hdd, hco⟩ := escapedName_head ⟨nm1, Suffix.meta, ""⟩ hnm1
    rw [hdd] at h
    injection h with h1 _
    rcases hco with hco | hco
    · rw [h1] at hco
      exact absurd hco (by decide)
    · rw [hco] at h1
      exact absurd h1 (by decide)
  · exfalso
    simp only [tokenData_meta nm1, tokenData_typeParameter nm2, List.append_assoc,
      List.cons_append, List.singleton_append, List.nil_append] at h
    obtain ⟨c, rest, hdd, hco⟩ := escapedName_head ⟨nm1, Suffix.meta, ""⟩ hnm1
    rw [hdd] at h
    injection h with h1 _
    rcases hco with hco | hco
    · rw [h1] at hco
      exact absurd hco (by decide)
    · rw [hco] at h1
      exact absurd h1 (by decide)
  · simp only [tokenData_method nm1, tokenData_package nm2, List.append_assoc,
      List.cons_append, List.singleton_append, List.nil_append] at h
    obtain ⟨hn, hr⟩ := escapedName_read ⟨nm1, Suffix.method, ""⟩ ⟨nm2, Suffix.package, ""⟩
      hnm1 hnm2 '(' _ '/' _ (by decide) (by decide) (by decide) (by decide) h
    injection hr with hr1 _
    exact absurd hr1 (by decide)
  · simp only [tokenData_method nm1, tokenData_typ nm2, List.append_assoc,
      List.cons_append, List.singleton_append, List.nil_append] at h
    obtain ⟨hn, hr⟩ := escapedName_read ⟨nm1, Suffix.method, ""⟩ ⟨nm2, Suffix.typ, ""⟩
      hnm1 hnm2 '(' _ '#' _ (by decide) (by decide) (by decide) (by decide) h
    injection hr with hr1 _
    exact absurd hr1 (by decide)
  · simp only [tokenData_method nm1, tokenData_term nm2, List.append_assoc,
      List.cons_append, List.singleton_append, List.nil_append] at h
    obtain ⟨hn, hr⟩ := escapedName_read ⟨nm1, Suffix.method, ""⟩ ⟨nm2, Suffix.term, ""⟩
      hnm1 hnm2 '(' _ '.' _ (by decide) (by decide) (by decide) (by decide) h
    injection hr with hr1 _
    exact absurd hr1 (by decide)
  · simp only [tokenData_method nm1, tokenData_meta nm2, List.append_assoc,
      List.cons_append, List.singleton_append, List.nil_append] at h
    obtain ⟨hn, hr⟩ := escapedName_read ⟨nm1, Suffix.method, ""⟩ ⟨nm2, Suffix.meta, ""⟩
      hnm1 hnm2 '(' _ ':' _ (by decide) (by decide) (by decide) (by decide) h
    injection hr with hr1 _
    exact absurd hr1 (by decide)
  · simp only [tokenData_method nm1, tokenData_method nm2, List.append_assoc,
      List.cons_append, List.singleton_append, List.nil_append] at h
    obtain ⟨hn, hr⟩ := escapedName_read ⟨nm1, Suffix.method, ""⟩ ⟨nm2, Suffix.method, ""⟩
      hnm1 hnm2 '(' _ '(' _ (by decide) (by decide) (by decide) (by decide) h
    injection hr with _ hr
    injection hr with _ hr
    injection hr with _ hr
    exact ⟨by rw [show nm1 = nm2 from hn], hr⟩
  · exfalso
    simp only [tokenData_method nm1, tokenData_parameter nm2, List.append_assoc,
      List.cons_append, List.singleton_append, List.nil_append] at h
    obtain ⟨c, rest, hdd, hco⟩ := escapedName_head ⟨nm1, Suffix.method, ""⟩ hnm1
    rw [hdd] at h
    injection h with h1 _
    rcases hco with hco | hco
    · rw [h1] at hco
      exact absurd hco (by decide)
    · rw [hco] at h1
      exact absurd h1 (by decide)
  · exfalso
    simp only [tokenData_method nm1, tokenData_typeParameter nm2, List.append_assoc,
      List.cons_append, List.singleton_append, List.nil_append] at h
    obtain ⟨c, rest, hdd, hco⟩ := escapedName_head ⟨nm1, Suffix.method, ""⟩ hnm1
    rw [hdd] at h
    injection h with h1 _
    rcases hco with hco | hco
    · rw [h1] at hco
      exact absurd hco (by decide)
    · rw [hco] at h1
      exact absurd h1 (by decide)
  · exfalso
    simp only [tokenData_parameter nm1, tokenData_package nm2, List.append_assoc,
      List.cons_append, List.singleton_append, List.nil_append] at h
    obtain ⟨c, rest, hdd, hco⟩ := escapedName_head ⟨nm2, Suffix.package, ""⟩ hnm2
    rw [hdd] at h
    injection h with h1 _
    rcases hco with hco | hco
    · rw [← h1] at hco
      exact absurd hco (by decide)
    · rw [hco] at h1
      exact absurd h1 (by decide)
  · exfalso
    simp only [tokenData_parameter nm1, tokenData_typ nm2, List.append_assoc,
      List.cons_append, List.singleton_append, List.nil_append] at h
    obtain ⟨c, rest, hdd, hco⟩ := escapedName_head ⟨nm2, Suffix.typ, ""⟩ hnm2
    rw [hdd] at h
    injection h with h1 _
    rcases hco with hco | hco
    · rw [← h1] at hco
      exact absurd hco (by decide)
    · rw [hco] at h1
      exact absurd h1 (by decide)
  · exfalso
    simp only [tokenData_parameter nm1, tokenData_term nm2, List.append_assoc,
      List.cons_append, List.singleton_append, List.nil_append] at h
    obtain ⟨c, rest, hdd, hco⟩ := escapedName_head ⟨nm2, Suffix.term, ""⟩ hnm2
    rw [hdd] at h
    injection h with h1 _
    rcases hco with hco | hco
    · rw [← h1] at hco
      exact absurd hco (by decide)
    · rw [hco] at h1
      exact absurd h1 (by decide)
  · exfalso
    simp only [tokenData_parameter nm1, tokenData_meta nm2, List.append_assoc,
      List.cons_append, List.singleton_append, List.nil_append] at h
    obtain ⟨c, rest, hdd, hco⟩ := escapedName_head ⟨nm2, Suffix.meta, ""⟩ hnm2
    rw [hdd] at h
    injection h with h1 _
    rcases hco with hco | hco
    · rw [← h1] at hco
      exact absurd hco (by decide)
    · rw [hco] at h1
      exact absurd h1 (by decide)
  · exfalso
    simp only [tokenData_parameter nm1, tokenData_method nm2, List.append_assoc,
      List.cons_append, List.singleton_append, List.nil_append] at h
    obtain ⟨c, rest, hdd, hco⟩ := escapedName_head ⟨nm2, Suffix.method, ""⟩ hnm2
    rw [hdd] at h
    injection h with h1 _
    rcases hco with hco | hco
    · rw [← h1] at hco
      exact absurd hco (by decide)
    · rw [hco] at h1
      exact absurd h1 (by decide)
  · simp only [tokenData_parameter nm1, tokenData_parameter nm2, List.append_assoc,
      List.cons_append, List.singleton_append, List.nil_append] at h
    injection h with _ h2
    obtain ⟨hn, hr⟩ := escapedName_read ⟨nm1, Suffix.parameter, ""⟩ ⟨nm2, Suffix.parameter, ""⟩
      hnm1 hnm2 ')' _ ')' _ (by decide) (by decide) (by decide) (by decide) h2
    injection hr with _ hr2
    exact ⟨by rw [show nm1 = nm2 from hn], hr2⟩
  · exfalso
    simp only [tokenData_parameter nm1, tokenData_typeParameter nm2, List.append_assoc,
      List.cons_append, List.singleton_append, List.nil_append] at h
    injection h with h1 _
    exact absurd h1 (by decide)
  · exfalso
    simp only [tokenData_typeParameter nm1, tokenData_package nm2, List.append_assoc,
      List.cons_append, List.singleton_append, List.nil_append] at h
    obtain ⟨c, rest, hdd, hco⟩ := escapedName_head ⟨nm2, Suffix.package, ""⟩ hnm2
    rw [hdd] at h
    injection h with h1 _
    rcases hco with hco | hco
    · rw [← h1] at hco
      exact absurd hco (by decide)
    · rw [hco] at h1
      exact absurd h1 (by decide)
  · exfalso
    simp only [tokenData_typeParameter nm1, tokenData_typ nm2, List.append_assoc,
      List.cons_append, List.singleton_append, List.nil_append] at h
    obtain ⟨c, rest, hdd, hco⟩ := escapedName_head ⟨nm2, Suffix.typ, ""⟩ hnm2
    rw [hdd] at h
    injection h with h1 _
    rcases hco with hco | hco
    · rw [← h1] at hco
      exact absurd hco (by decide)
    · rw [hco] at h1
      exact absurd h1 (by decide)
  · exfalso
    simp only [tokenData_typeParameter nm1, tokenData_term nm2, List.append_assoc,
      List.cons_append, List.singleton_append, List.nil_append] at h
    obtain ⟨c, rest, hdd, hco⟩ := escapedName_head ⟨nm2, Suffix.term, ""⟩ hnm2
    rw [hdd] at h
    injection h with h1 _
    rcases hco with hco | hco
    · rw [← h1] at hco
      exact absurd hco (by decide)
    · rw [hco] at h1
      exact absurd h1 (by decide)
  · exfalso
    simp only [tokenData_typeParameter nm1, tokenData_meta nm2, List.append_assoc,
      List.cons_append, List.singleton_append, List.nil_append] at h
    obtain ⟨c, rest, hdd, hco⟩ := escapedName_head ⟨nm2, Suffix.meta, ""⟩ hnm2
    rw [hdd] at h
    injection h with h1 _
    rcases hco with hco | hco
    · rw [← h1] at hco
      exact absurd hco (by decide)
    · rw [hco] at h1
      exact absurd h1 (by decide)
  · exfalso
    simp only [tokenData_typeParameter nm1, tokenData_method nm2, List.append_assoc,
      List.cons_append, List.singleton_append, List.nil_append] at h
    obtain ⟨c, rest, hdd, hco⟩ := escapedName_head ⟨nm2, Suffix.method, ""⟩ hnm2
    rw [hdd] at h
    injection h with h1 _
    rcases hco with hco | hco
    · rw [← h1] at hco
      exact absurd hco (by decide)
    · rw [hco] at h1
      exact absurd h1 (by decide)
  · exfalso
    simp only [tokenData_typeParameter nm1, tokenData_parameter nm2, List.append_assoc,
      List.cons_append, List.singleton_append, List.nil_append] at h
    injection h with h1 _
    exact absurd h1 (by decide)
  · simp only [tokenData_typeParameter nm1, tokenData_typeParameter nm2, List.append_assoc,
      List.cons_append, List.singleton_append, List.nil_append] at h
    injection h with _ h2
    obtain ⟨hn, hr⟩ := escapedName_read ⟨nm1, Suffix.typeParameter, ""⟩ ⟨nm2, Suffix.typeParameter, ""⟩
      hnm1 hnm2 ']' _ ']' _ (by decide) (by decide) (by decide) (by decide) h2
    injection hr with _ hr2
    exact ⟨by rw [show nm1 = nm2 from hn], hr2⟩

/-- A rendered descriptor token is never empty. -/
theorem tokenData_ne_nil (d : Descriptor) (hdis : d.disambiguator = "") :
    (descriptorString d).data ≠ [] := by
  obtain ⟨nm, sf, di⟩ := d
  cases hdis
  cases sf
  · rw [tokenData_package]
    simp
  · rw [tokenData_typ]
    simp
  · rw [tokenData_term]
    simp
  · rw [tokenData_meta]
    simp
  · rw [tokenData_method]
    simp
  · rw [tokenData_parameter]
    simp
  · rw [tokenData_typeParameter]
    simp

/-- Concatenated rendering of a descriptor chain. -/
def chainValue : List Descriptor → List Char
  | [] => []
  | d :: rest => (descriptorString d).data ++ chainValue rest

/-- Chains of valid descriptors render injectively. -/
theorem chainValue_inj (l1 : List Descriptor) :
    ∀ l2 : List Descriptor,
      (∀ d ∈ l1, d.name ≠ "" ∧ d.disambiguator = "") →
      (∀ d ∈ l2, d.name ≠ "" ∧ d.disambiguator = "") →
      chainValue l1 = chainValue l2 → l1 = l2 := by
  induction l1 with
  | nil =>
    intro l2 _ h2 h
    cases l2 with
    | nil => rfl
    | cons e es =>
      exfalso
      rw [chainValue, chainValue] at h
      rcases List.append_eq_nil.1 h.symm with ⟨he, _⟩
      exact tokenData_ne_nil e (h2 e (List.mem_cons_self e es)).2 he
  | cons d ds ih =>
    intro l2 h1 h2 h
    cases l2 with
    | nil =>
      exfalso
      rw [chainValue, chainValue] at h
      rcases List.append_eq_nil.1 h with ⟨he, _⟩
      exact tokenData_ne_nil d (h1 d (List.mem_cons_self d ds)).2 he
    | cons e es =>
      rw [chainValue, chainValue] at h
      obtain ⟨hde, hrest⟩ := token_prefix_free d e
        (h1 d (List.mem_cons_self d ds)) (h2 e (List.mem_cons_self e es)) _ _ h
      subst hde
      rw [ih es (fun q hq => h1 q (List.mem_cons_of_mem d hq))
        (fun q hq => h2 q (List.mem_cons_of_mem d hq)) hrest]

/-- The identities `FileIndexer.descriptor` can mint: global chains rooted at
`Empty` whose descriptors have non-empty names and empty disambiguators. -/
def validSym : LsifSymbol → Bool
  | LsifSymbol.empty => true
  | LsifSymbol.localSymbol _ => false
  | LsifSymbol.global owner desc =>
    validSym owner && (desc.name ≠ "" && desc.disambiguator = "")

/-- Owner chain of a symbol, outermost owner first. -/
def chainOf : LsifSymbol → List Descriptor
  | LsifSymbol.empty => []
  | LsifSymbol.localSymbol _ => []
  | LsifSymbol.global owner desc => chainOf owner ++ [desc]

theorem chainValue_append (l1 l2 : List Descriptor) :
    chainValue (l1 ++ l2) = chainValue l1 ++ chainValue l2 := by
  induction l1 with
  | nil => rfl
  | cons d ds ih =>
    rw [List.cons_append, chainValue, chainValue, ih, List.append_assoc]

theorem value_data_eq_chain (s : LsifSymbol) (hv : validSym s = true) :
    (s.value).data = chainValue (chainOf s) := by
  induction s with
  | empty => rfl
  | localSymbol i => cases hv
  | global owner desc ih =>
    unfold validSym at hv
    simp only [Bool.and_eq_true] at hv
    show (owner.value ++ descriptorString desc).data = _
    rw [data_append, ih hv.1, chainOf, chainValue_append, chainValue, chainValue,
        List.append_nil]

theorem chainOf_valid (s : LsifSymbol) (hv : validSym s = true) :
    ∀ d ∈ chainOf s, d.name ≠ "" ∧ d.disambiguator = "" := by
  induction s with
  | empty =>
    intro d hd
    cases hd
  | localSymbol i =>
    cases hv
  | global owner desc ih =>
    intro d hd
    unfold validSym at hv
    simp only [Bool.and_eq_true, decide_eq_true_eq] at hv
    rw [chainOf] at hd
    rcases List.mem_append.1 hd with hd | hd
    · exact ih hv.1 d hd
    · rw [List.mem_singleton] at hd
      subst hd
      exact ⟨hv.2.1, hv.2.2⟩

theorem chainOf_inj (s1 : LsifSymbol) :
    ∀ s2 : LsifSymbol, validSym s1 = true → validSym s2 = true →
      chainOf s1 = chainOf s2 → s1 = s2 := by
  induction s1 with
  | empty =>
    intro s2 _ hv2 h
    cases s2 with
    | empty => rfl
    | localSymbol i => cases hv2
    | global owner desc =>
      exfalso
      rw [chainOf, chainOf] at h
      exact List.append_ne_nil_of_right_ne_nil _ (by simp) h.symm
  | localSymbol i =>
    intro s2 hv1
    cases hv1
  | global owner desc ih =>
    intro s2 hv1 hv2 h
    cases s2 with
    | empty =>
      exfalso
      rw [chainOf, chainOf] at h
      exact List.append_ne_nil_of_right_ne_nil _ (by simp) h
    | localSymbol i => cases hv2
    | global owner2 desc2 =>
      rw [chainOf, chainOf] at h
      have h2 := congrArg List.reverse h
      simp only [List.reverse_append, List.reverse_singleton, List.singleton_append,
        List.cons.injEq] at h2
      obtain ⟨rfl, h3⟩ := h2
      unfold validSym at hv1 hv2
      simp only [Bool.and_eq_true] at hv1 hv2
      rw [ih owner2 hv1.1 hv2.1 (List.reverse_injective h3)]

/-- Valid symbols render injectively: equal symbol strings force equal
identities. -/
theorem value_inj (s1 s2 : LsifSymbol)
    (hv1 : validSym s1 = true) (hv2 : validSym s2 = true)
    (h : s1.value = s2.value) : s1 = s2 := by
  have hdata := congrArg String.data h
  rw [value_data_eq_chain s1 hv1, value_data_eq_chain s2 hv2] at hdata
  exact chainOf_inj s1 s2 hv1 hv2
    (chainValue_inj (chainOf s1) (chainOf s2) (chainOf_valid s1 hv1)
      (chainOf_valid s2 hv2) hdata)

/-- Claim C8 (counterexample) — two distinct merged interface declarations
(nodes 1 and 3 of `mergedTree`) both receive Global identities in one run,
yet their rendered symbol strings are identical. -/
theorem claim_C8_counterexample :
    (lsifSymbol mergedTree initialState 1).1
        = LsifSymbol.global pkgSym (typeDescriptor "I")
      ∧ (lsifSymbol mergedTree (lsifSymbol mergedTree initialState 1).2 3).1
        = (lsifSymbol mergedTree initialState 1).1
      ∧ (lsifSymbol mergedTree (lsifSymbol mergedTree initialState 1).2 3).1.value
        = (lsifSymbol mergedTree initialState 1).1.value
      ∧ (1 : Nat) ≠ 3 :=
  ⟨by decide, by decide, by decide, by decide⟩

/-- Claim C8 (amended) — for declarations whose Global identities *differ*,
the rendered symbol strings differ (rendering is injective on the identities
the dispatch can mint: `Empty`-rooted chains of descriptors with non-empty
names and empty disambiguators).  Declarations resolving to one identity —
merged or overloaded declarations — share one rendered string. -/
theorem claim_C8_amended (s1 s2 : LsifSymbol)
    (hv1 : validSym s1 = true) (hv2 : validSym s2 = true)
    (hne : s1 ≠ s2) : s1.value ≠ s2.value :=
  fun h => hne (value_inj s1 s2 hv1 hv2 h)

theorem claim_C8_amended_witness :
    (LsifSymbol.global LsifSymbol.empty (termDescriptor "a")).value
      ≠ (LsifSymbol.global LsifSymbol.empty (typeDescriptor "a")).value :=
  claim_C8_amended _ _ (by decide) (by decide) (by decide)
